import Mathlib

/-!
Verification of the command-line REST client `restful.py`.

The development shallowly embeds the program: Python values decoded from
JSON become the inductive `JVal`; `json.dump(..., indent=4)` / `json.load`
become `json_dumps_indent4` / `json_loads`; the `csv` module's
`DictWriter` / `reader` become row-level rendering and parsing over
character lists; the observable behaviour of one invocation (printed
lines, network calls, file writes, exit code) becomes an `Outcome` trace.
Machine-independent parts (argument grammar, response classification,
extension dispatch) are translated function by function from the source.
The network and the filesystem are oracles: the single HTTP response the
transport would deliver is an explicit argument, and a file write is an
event in the trace.
-/

/-! ## Basic character and digit utilities -/

/-- JSON whitespace, as in the `json` module's `WHITESPACE` class
(space, tab, newline, carriage return). -/
def isWs (c : Char) : Bool :=
  [' ', '\t', '\n', '\r'].contains c

/-- Skip leading JSON whitespace (the decoder's `_w(s, idx).end()`). -/
def skipWs (cs : List Char) : List Char :=
  cs.dropWhile isWs

/-- The character for a single decimal digit `0 ≤ d ≤ 9`. -/
def digitChar (d : Nat) : Char :=
  Char.ofNat (48 + d)

/-- Decimal digits of `n`, most significant first; `fuel` bounds the
recursion depth (any `fuel > n` is enough). -/
def natDigitsAux : Nat → Nat → List Char
  | 0, _ => []
  | f + 1, n =>
    if n < 10 then [digitChar n]
    else natDigitsAux f (n / 10) ++ [digitChar (n % 10)]

/-- Decimal representation of a natural number, as Python's `str`/`repr`. -/
def natDigits (n : Nat) : List Char :=
  natDigitsAux (n + 1) n

/-- Python `str(n)` for a natural number. -/
def natRepr (n : Nat) : String :=
  String.mk (natDigits n)

/-- Python `repr`/`str` of an `int`: optional minus sign then digits. -/
def intRepr (n : Int) : List Char :=
  if n < 0 then '-' :: natDigits n.natAbs else natDigits n.toNat

/-- Numeric value of a decimal digit string (fold of `acc * 10 + digit`). -/
def digitsToNat (ds : List Char) : Nat :=
  ds.foldl (fun a c => a * 10 + (c.toNat - 48)) 0

/-- The integer part of the JSON number grammar, `0|[1-9][0-9]*`
(the first group of the decoder's `NUMBER_RE`): a leading `0` matches
alone, otherwise a maximal nonempty digit run. -/
def parseJsonUInt (cs : List Char) : Option (Nat × List Char) :=
  match cs with
  | [] => none
  | c :: r =>
    if c = '0' then some (0, r)
    else if c.isDigit then
      some (digitsToNat ((c :: r).takeWhile Char.isDigit),
            (c :: r).dropWhile Char.isDigit)
    else none

/-- Lowercase hex digit for `0 ≤ d ≤ 15`, as in Python's `"%04x"`. -/
def hexDig (d : Nat) : Char :=
  if d < 10 then Char.ofNat (48 + d) else Char.ofNat (87 + d)

/-- Four lowercase hex digits for `n < 0x10000` (`"\\u%04x" % n`). -/
def hex4 (n : Nat) : List Char :=
  [hexDig (n / 4096 % 16), hexDig (n / 256 % 16), hexDig (n / 16 % 16),
   hexDig (n % 16)]

/-- Value of one hex digit (upper or lower case), if any. -/
def hexVal (c : Char) : Option Nat :=
  if 48 ≤ c.toNat ∧ c.toNat ≤ 57 then some (c.toNat - 48)
  else if 97 ≤ c.toNat ∧ c.toNat ≤ 102 then some (c.toNat - 87)
  else if 65 ≤ c.toNat ∧ c.toNat ≤ 70 then some (c.toNat - 55)
  else none

/-! ## The JSON data model

`JVal` models the Python values produced by `json.loads` / `response.json()`:
`None`, `bool`, `int`, `str`, `list`, `dict`.  Strings are lists of Unicode
scalar values; dictionaries are key/value sequences in insertion order
(a faithful image of a Python `dict`, whose keys are distinct — the
predicate `wfKeysV` below characterises that subset).  Floating-point
numbers are outside the model. -/

mutual
inductive JVal where
  | null : JVal
  | bool (b : Bool) : JVal
  | int (n : Int) : JVal
  | str (s : List Char) : JVal
  | arr (xs : JArr) : JVal
  | obj (fs : JObj) : JVal
deriving DecidableEq

inductive JArr where
  | nil : JArr
  | cons (hd : JVal) (tl : JArr) : JArr
deriving DecidableEq

inductive JObj where
  | nil : JObj
  | cons (k : List Char) (v : JVal) (tl : JObj) : JObj
deriving DecidableEq
end

/-- The elements of a JSON array, as a Lean list. -/
def JArr.toList : JArr → List JVal
  | .nil => []
  | .cons x xs => x :: xs.toList

/-- The keys of a JSON object, in insertion order (Python `dict.keys()`). -/
def JObj.keyList : JObj → List (List Char)
  | .nil => []
  | .cons k _ tl => k :: tl.keyList

/-- The values of a JSON object, in insertion order (Python `dict.values()`). -/
def JObj.valList : JObj → List JVal
  | .nil => []
  | .cons _ v tl => v :: tl.valList

/-- Whether the object has the given key (Python `k in d`). -/
def JObj.hasKey : JObj → List Char → Bool
  | .nil, _ => false
  | .cons k' _ tl, k => k' == k || tl.hasKey k

/-- Python `d.get(k, default)`: the first (and in a real dict only)
binding of `k`, or the default. -/
def JObj.getD : JObj → List Char → JVal → JVal
  | .nil, _, dflt => dflt
  | .cons k' v tl, k, dflt => if k' == k then v else tl.getD k dflt

/-- Python `d[k] = v`: replace the value in place if the key exists
(keeping its position), otherwise append the binding. -/
def JObj.setItem : JObj → List Char → JVal → JObj
  | .nil, k, v => .cons k v .nil
  | .cons k' v' tl, k, v =>
    if k' == k then .cons k' v tl else .cons k' v' (tl.setItem k v)

/-- `dict(pairs)`: fold the parsed key/value pairs into a dict with
`d[k] = v` per pair (duplicate keys: last value wins, first position). -/
def dictFromPairsAux : JObj → JObj → JObj
  | acc, .nil => acc
  | acc, .cons k v tl => dictFromPairsAux (acc.setItem k v) tl

def dictFromPairs (ps : JObj) : JObj :=
  dictFromPairsAux .nil ps

mutual
/-- The value lies in the image of Python's data model: every object
(at any depth) has pairwise-distinct keys, as a real `dict` does. -/
def wfKeysV : JVal → Bool
  | .null | .bool _ | .int _ | .str _ => true
  | .arr xs => wfKeysA xs
  | .obj fs => wfKeysO fs

def wfKeysA : JArr → Bool
  | .nil => true
  | .cons x xs => wfKeysV x && wfKeysA xs

def wfKeysO : JObj → Bool
  | .nil => true
  | .cons k v tl => !tl.hasKey k && wfKeysV v && wfKeysO tl
end

/-! ## The JSON serializer (`json.dump(obj, f, indent=4)`)

Follows `json.encoder._make_iterencode` with `indent = "    "`,
`ensure_ascii = True`, default separators for indented output
(`","` and `": "`), `sort_keys = False`. -/

/-- The `ensure_ascii` escape of one character (`ESCAPE_DCT` /
`\uXXXX`, with a surrogate pair for astral code points). -/
def escChar (c : Char) : List Char :=
  if c = '"' then ['\\', '"']
  else if c = '\\' then ['\\', '\\']
  else if c = '\n' then ['\\', 'n']
  else if c = '\r' then ['\\', 'r']
  else if c = '\t' then ['\\', 't']
  else if c.toNat = 8 then ['\\', 'b']
  else if c.toNat = 12 then ['\\', 'f']
  else if 32 ≤ c.toNat ∧ c.toNat ≤ 126 then [c]
  else if c.toNat < 65536 then '\\' :: 'u' :: hex4 c.toNat
  else
    '\\' :: 'u' :: hex4 (55296 + (c.toNat - 65536) / 1024) ++
      ('\\' :: 'u' :: hex4 (56320 + (c.toNat - 65536) % 1024))

def escChars : List Char → List Char
  | [] => []
  | c :: cs => escChar c ++ escChars cs

/-- `json.encoder.py_encode_basestring_ascii`: a double-quoted,
ASCII-escaped string literal. -/
def encStr (s : List Char) : List Char :=
  '"' :: escChars s ++ ['"']

/-- The newline-plus-indentation separator at nesting depth `d`
(`'\n' + '    ' * d`). -/
def nlIndent (d : Nat) : List Char :=
  '\n' :: List.replicate (4 * d) ' '

mutual
/-- Serialize a value at nesting depth `d`, exactly as
`json.dump(v, f, indent=4)` lays it out. -/
def ser : JVal → Nat → List Char
  | .null, _ => ['n', 'u', 'l', 'l']
  | .bool true, _ => ['t', 'r', 'u', 'e']
  | .bool false, _ => ['f', 'a', 'l', 's', 'e']
  | .int n, _ => intRepr n
  | .str s, _ => encStr s
  | .arr .nil, _ => ['[', ']']
  | .arr (.cons x xs), d =>
    '[' :: nlIndent (d + 1) ++ ser x (d + 1) ++ serTailA xs (d + 1) ++
      nlIndent d ++ [']']
  | .obj .nil, _ => ['{', '}']
  | .obj (.cons k v fs), d =>
    '{' :: nlIndent (d + 1) ++ encStr k ++ ':' :: ' ' :: ser v (d + 1) ++
      serTailO fs (d + 1) ++ nlIndent d ++ ['}']

/-- The remaining array items, each preceded by `",\n" + indent`. -/
def serTailA : JArr → Nat → List Char
  | .nil, _ => []
  | .cons x xs, d => ',' :: nlIndent d ++ ser x d ++ serTailA xs d

/-- The remaining object items, each preceded by `",\n" + indent`. -/
def serTailO : JObj → Nat → List Char
  | .nil, _ => []
  | .cons k v fs, d =>
    ',' :: nlIndent d ++ encStr k ++ ':' :: ' ' :: ser v d ++ serTailO fs d
end

/-- `json.dumps(v, indent=4)`, also the file content of
`json.dump(v, f, indent=4)`. -/
def json_dumps_indent4 (v : JVal) : String :=
  String.mk (ser v 0)

/-! ## The JSON parser (`json.load` / `json.loads`)

A recursive-descent model of `json.decoder.JSONDecoder` (strict mode):
values are `null` / `true` / `false` / string / number / array / object,
whitespace `[ \t\n\r]` is skipped between tokens, strings reject raw
control characters and unknown escapes, objects require double-quoted
keys and are turned into dicts via `dict(pairs)`.  `fuel` bounds the
recursion; one unit is spent per token step, so any fuel larger than the
input length is sufficient.  Two deliberate deviations, both outside the
reachable inputs of this program: numbers with a fraction or exponent
(Python floats) are not modelled, and a `\uXXXX` escape denoting a lone
surrogate is rejected because Lean strings hold only scalar values. -/

/-- Parse the body of a string literal (the opening quote already
consumed): characters and escapes until the closing quote. -/
def parseStr : Nat → List Char → Option (List Char × List Char)
  | 0, _ => none
  | _ + 1, [] => none
  | fuel + 1, c :: r =>
    if c = '"' then some ([], r)
    else if c = '\\' then
      match r with
      | [] => none
      | e :: r1 =>
        if e = '"' then (parseStr fuel r1).map (fun p => ('"' :: p.1, p.2))
        else if e = '\\' then (parseStr fuel r1).map (fun p => ('\\' :: p.1, p.2))
        else if e = '/' then (parseStr fuel r1).map (fun p => ('/' :: p.1, p.2))
        else if e = 'b' then (parseStr fuel r1).map (fun p => (Char.ofNat 8 :: p.1, p.2))
        else if e = 'f' then (parseStr fuel r1).map (fun p => (Char.ofNat 12 :: p.1, p.2))
        else if e = 'n' then (parseStr fuel r1).map (fun p => ('\n' :: p.1, p.2))
        else if e = 'r' then (parseStr fuel r1).map (fun p => ('\r' :: p.1, p.2))
        else if e = 't' then (parseStr fuel r1).map (fun p => ('\t' :: p.1, p.2))
        else if e = 'u' then
          match r1 with
          | h1 :: h2 :: h3 :: h4 :: r2 =>
            match hexVal h1, hexVal h2, hexVal h3, hexVal h4 with
            | some a, some b, some c3, some d4 =>
              let n := a * 4096 + b * 256 + c3 * 16 + d4
              if 55296 ≤ n ∧ n < 56320 then
                -- high surrogate: must pair with a following \uXXXX low one
                match r2 with
                | '\\' :: 'u' :: g1 :: g2 :: g3 :: g4 :: r3 =>
                  match hexVal g1, hexVal g2, hexVal g3, hexVal g4 with
                  | some a', some b', some c', some d' =>
                    let m := a' * 4096 + b' * 256 + c' * 16 + d'
                    if 56320 ≤ m ∧ m < 57344 then
                      (parseStr fuel r3).map (fun p =>
                        (Char.ofNat (65536 + (n - 55296) * 1024 + (m - 56320)) :: p.1, p.2))
                    else none
                  | _, _, _, _ => none
                | _ => none
              else if 56320 ≤ n ∧ n < 57344 then none
              else (parseStr fuel r2).map (fun p => (Char.ofNat n :: p.1, p.2))
            | _, _, _, _ => none
          | _ => none
        else none
    else if 32 ≤ c.toNat then (parseStr fuel r).map (fun p => (c :: p.1, p.2))
    else none

mutual
/-- Parse one JSON value after skipping leading whitespace
(`JSONDecoder.raw_decode`'s scanner). -/
def parseVal : Nat → List Char → Option (JVal × List Char)
  | 0, _ => none
  | fuel + 1, cs =>
    match skipWs cs with
    | [] => none
    | c :: r =>
      if c = 'n' then
        match r with
        | 'u' :: 'l' :: 'l' :: r' => some (.null, r')
        | _ => none
      else if c = 't' then
        match r with
        | 'r' :: 'u' :: 'e' :: r' => some (.bool true, r')
        | _ => none
      else if c = 'f' then
        match r with
        | 'a' :: 'l' :: 's' :: 'e' :: r' => some (.bool false, r')
        | _ => none
      else if c = '"' then (parseStr fuel r).map (fun p => (.str p.1, p.2))
      else if c = '[' then parseArrBody fuel r
      else if c = '{' then parseObjBody fuel r
      else if c = '-' then
        (parseJsonUInt r).map (fun p => (.int (-(p.1 : Int)), p.2))
      else if c.isDigit then
        (parseJsonUInt (c :: r)).map (fun p => (.int (p.1 : Int), p.2))
      else none

/-- Parse an array body, the `[` already consumed. -/
def parseArrBody : Nat → List Char → Option (JVal × List Char)
  | 0, _ => none
  | fuel + 1, cs =>
    let cs' := skipWs cs
    if cs'.head? = some ']' then some (.arr .nil, cs'.tail)
    else
      match parseVal fuel cs' with
      | none => none
      | some (v, r) =>
        match parseArrRest fuel r with
        | none => none
        | some (xs, r') => some (.arr (.cons v xs), r')

/-- After one array element: `,` and a further element, or `]`. -/
def parseArrRest : Nat → List Char → Option (JArr × List Char)
  | 0, _ => none
  | fuel + 1, cs =>
    match skipWs cs with
    | ']' :: r => some (.nil, r)
    | ',' :: r =>
      match parseVal fuel r with
      | none => none
      | some (v, r') =>
        match parseArrRest fuel r' with
        | none => none
        | some (xs, r'') => some (.cons v xs, r'')
    | _ => none

/-- Parse an object body, the `{` already consumed; the collected pairs
go through `dict(pairs)`. -/
def parseObjBody : Nat → List Char → Option (JVal × List Char)
  | 0, _ => none
  | fuel + 1, cs =>
    let cs' := skipWs cs
    if cs'.head? = some '}' then some (.obj .nil, cs'.tail)
    else if cs'.head? = some '"' then
      match parseStr fuel cs'.tail with
      | none => none
      | some (k, r) =>
        match skipWs r with
        | ':' :: r1 =>
          match parseVal fuel r1 with
          | none => none
          | some (v, r2) =>
            match parseObjRest fuel r2 with
            | none => none
            | some (ps, r3) => some (.obj (dictFromPairs (.cons k v ps)), r3)
        | _ => none
    else none

/-- After one object member: `,` and a further member, or `}`. -/
def parseObjRest : Nat → List Char → Option (JObj × List Char)
  | 0, _ => none
  | fuel + 1, cs =>
    match skipWs cs with
    | '}' :: r => some (.nil, r)
    | ',' :: r =>
      match skipWs r with
      | '"' :: r1 =>
        match parseStr fuel r1 with
        | none => none
        | some (k, r2) =>
          match skipWs r2 with
          | ':' :: r3 =>
            match parseVal fuel r3 with
            | none => none
            | some (v, r4) =>
              match parseObjRest fuel r4 with
              | none => none
              | some (ps, r5) => some (.cons k v ps, r5)
          | _ => none
      | _ => none
    | _ => none
end

/-- `json.loads(s)`: parse one value and require only whitespace after it
(otherwise `json.load` raises "Extra data"). -/
def json_loads (s : String) : Option JVal :=
  match parseVal (s.data.length + 1) s.data with
  | some (v, rest) => if skipWs rest = [] then some v else none
  | none => none

/-! ## Python string conversion (`str`/`repr`) and the `csv` module

`csv.writer` converts a non-string field with `str(...)`, except `None`,
which becomes the empty string.  `str` of a container uses `repr` of the
parts; `repr` of a string picks a quote (single, unless the string holds
a single quote and no double quote) and escapes backslash, the quote,
`\n`, `\r`, `\t` and other control characters as `\xXX`.  (Python decides
printability of non-ASCII characters by Unicode category; the model keeps
every character of code ≥ 32 other than 0x7f verbatim.) -/

/-- Two lowercase hex digits. -/
def hex2 (n : Nat) : List Char :=
  [hexDig (n / 16 % 16), hexDig (n % 16)]

/-- One character of `repr(str)`, with chosen quote `q`. -/
def pyReprStrChar (q : Char) (c : Char) : List Char :=
  if c = '\\' then ['\\', '\\']
  else if c = q then ['\\', q]
  else if c = '\n' then ['\\', 'n']
  else if c = '\r' then ['\\', 'r']
  else if c = '\t' then ['\\', 't']
  else if c.toNat < 32 ∨ c.toNat = 127 then '\\' :: 'x' :: hex2 c.toNat
  else [c]

def pyReprStrChars (q : Char) : List Char → List Char
  | [] => []
  | c :: cs => pyReprStrChar q c ++ pyReprStrChars q cs

/-- Python `repr` of a string. -/
def pyReprStr (s : List Char) : List Char :=
  let q : Char := if s.contains '\'' ∧ ¬s.contains '"' then '"' else '\''
  q :: pyReprStrChars q s ++ [q]

mutual
/-- Python `repr(v)` for a decoded JSON value (= `str(v)` except for
strings, which `str` returns unquoted). -/
def pyRepr : JVal → List Char
  | .null => ['N', 'o', 'n', 'e']
  | .bool true => ['T', 'r', 'u', 'e']
  | .bool false => ['F', 'a', 'l', 's', 'e']
  | .int n => intRepr n
  | .str s => pyReprStr s
  | .arr xs => '[' :: pyReprA xs ++ [']']
  | .obj fs => '{' :: pyReprO fs ++ ['}']

def pyReprA : JArr → List Char
  | .nil => []
  | .cons x .nil => pyRepr x
  | .cons x xs => pyRepr x ++ ',' :: ' ' :: pyReprA xs

def pyReprO : JObj → List Char
  | .nil => []
  | .cons k v .nil => pyReprStr k ++ ':' :: ' ' :: pyRepr v
  | .cons k v fs =>
    pyReprStr k ++ ':' :: ' ' :: pyRepr v ++ ',' :: ' ' :: pyReprO fs
end

/-- `csv.writer`'s rendering of one Python value into a field: `None`
becomes the empty string, a string is written as-is, anything else as
`str(value)`. -/
def csvField : JVal → List Char
  | .null => []
  | .str s => s
  | v => pyRepr v

/-- `DictWriter._dict_to_list` with the default `extrasaction='raise'`
and `restval=None`: a key outside the field names raises `ValueError`;
otherwise the record's values are emitted in field-name order, a missing
key yielding the restval (`None`, hence an empty field). -/
def dictToRow (fieldnames : List (List Char)) (r : JObj) :
    Except String (List (List Char)) :=
  if r.keyList.any (fun k => !fieldnames.contains k) then
    .error "dict contains fields not in fieldnames"
  else .ok (fieldnames.map (fun k => csvField (r.getD k .null)))

/-- `writerows`: one `_dict_to_list` row per record; a record without
`.keys()` (a non-dict) raises `AttributeError`. -/
def csvRows (fieldnames : List (List Char)) : List JVal →
    Except String (List (List (List Char)))
  | [] => .ok []
  | r :: rs =>
    match r with
    | .obj fs =>
      match dictToRow fieldnames fs with
      | .error e => .error e
      | .ok row =>
        match csvRows fieldnames rs with
        | .error e => .error e
        | .ok rows => .ok (row :: rows)
    | .null => .error "'NoneType' object has no attribute 'keys'"
    | .bool _ => .error "'bool' object has no attribute 'keys'"
    | .int _ => .error "'int' object has no attribute 'keys'"
    | .str _ => .error "'str' object has no attribute 'keys'"
    | .arr _ => .error "'list' object has no attribute 'keys'"

/-! ### csv rendering and parsing (default dialect)

Delimiter `,`, quote char `"`, `QUOTE_MINIMAL`, doubled quotes,
line terminator `\r\n`.  A field is quoted iff it contains a special
character, or it is the empty lone field of its row (CPython's
`join_append` special case).  The reader is the inverse state machine;
a blank line yields an empty row. -/

/-- Does `QUOTE_MINIMAL` force quotes around this field? -/
def csvSpecial (c : Char) : Bool :=
  c == ',' || c == '"' || c == '\r' || c == '\n'

/-- Double every quote character (the writer's escaping inside quotes). -/
def csvEscQuotes : List Char → List Char
  | [] => []
  | c :: cs =>
    if c = '"' then '"' :: '"' :: csvEscQuotes cs else c :: csvEscQuotes cs

/-- Render one field of a row with `n` fields. -/
def csvRenderField (n : Nat) (f : List Char) : List Char :=
  if f.any csvSpecial || (f.isEmpty && n == 1) then
    '"' :: csvEscQuotes f ++ ['"']
  else f

/-- The comma-separated fields of a row with `n` fields in total. -/
def csvRenderFieldsAux (n : Nat) : List (List Char) → List Char
  | [] => []
  | [f] => csvRenderField n f
  | f :: fs => csvRenderField n f ++ ',' :: csvRenderFieldsAux n fs

/-- Render one row: comma-separated fields, `\r\n`-terminated. -/
def csvRenderRow (row : List (List Char)) : List Char :=
  csvRenderFieldsAux row.length row ++ ['\r', '\n']

/-- Render the whole file. -/
def csvRender : List (List (List Char)) → List Char
  | [] => []
  | row :: rows => csvRenderRow row ++ csvRender rows

/-- The body of a quoted field, opening quote consumed: a doubled quote
is a literal quote, a lone quote closes the field, anything else
(including `\r\n`) is literal.  `fuel` bounds the recursion; one unit is
spent per input character, so any fuel beyond the input length works. -/
def csvQuotedBody : Nat → List Char → Option (List Char × List Char)
  | 0, _ => none
  | _ + 1, [] => none
  | fuel + 1, c :: r =>
    if c = '"' then
      if r.head? = some '"' then
        (csvQuotedBody fuel r.tail).map (fun p => ('"' :: p.1, p.2))
      else some ([], r)
    else (csvQuotedBody fuel r).map (fun p => (c :: p.1, p.2))

/-- An unquoted field: everything up to the next `,` or `\r`. -/
def csvUnquoted (cs : List Char) : List Char × List Char :=
  (cs.takeWhile (fun c => !(c == ',' || c == '\r')),
   cs.dropWhile (fun c => !(c == ',' || c == '\r')))

/-- The fields of one row (at least one field). -/
def csvParseFields : Nat → List Char → Option (List (List Char) × List Char)
  | 0, _ => none
  | fuel + 1, cs =>
    if cs.head? = some '"' then
      match csvQuotedBody (cs.tail.length + 1) cs.tail with
      | none => none
      | some (f, r) =>
        match r with
        | ',' :: r2 =>
          (csvParseFields fuel r2).map (fun p => (f :: p.1, p.2))
        | '\r' :: '\n' :: r2 => some ([f], r2)
        | [] => some ([f], [])
        | _ => none
    else
      let p := csvUnquoted cs
      match p.2 with
      | ',' :: r2 =>
        (csvParseFields fuel r2).map (fun q => (p.1 :: q.1, q.2))
      | '\r' :: '\n' :: r2 => some ([p.1], r2)
      | [] => some ([p.1], [])
      | _ => none

/-- All rows of the stream. -/
def csvParseRows : Nat → List Char → Option (List (List (List Char)))
  | 0, _ => none
  | fuel + 1, cs =>
    match cs with
    | [] => some []
    | c :: r =>
      if c = '\r' ∧ r.head? = some '\n' then
        (csvParseRows fuel r.tail).map (fun rs => [] :: rs)
      else
        match csvParseFields (cs.length + 1) cs with
        | none => none
        | some (row, rest) =>
          (csvParseRows fuel rest).map (fun rs => row :: rs)

/-- `list(csv.reader(f))` over the file content. -/
def csvParse (cs : List Char) : Option (List (List (List Char))) :=
  csvParseRows (cs.length + 1) cs

/-! ## `os.path.splitext` -/

/-- Python `str.rfind`: the index of the last occurrence, `-1` if absent. -/
def rfindAux (c : Char) : List Char → Int → Int → Int
  | [], _, best => best
  | x :: xs, i, best => rfindAux c xs (i + 1) (if x == c then i else best)

def rfind (c : Char) (l : List Char) : Int :=
  rfindAux c l 0 (-1)

/-- The extension part of `posixpath.splitext(path)`: the suffix from the
last dot, provided that dot comes after the last `/` and the basename
does not consist only of leading dots up to it. -/
def splitext_ext (path : String) : String :=
  let l := path.data
  let sepIndex := rfind '/' l
  let dotIndex := rfind '.' l
  if sepIndex < dotIndex then
    let base := (l.take dotIndex.toNat).drop (sepIndex + 1).toNat
    if base.any (fun c => !(c == '.')) then
      String.mk (l.drop dotIndex.toNat)
    else ""
  else ""

/-! ## The program: `RestClient` and the argument grammar

One invocation's observable behaviour is a trace of events plus the
process exit code.  The single HTTP response the transport would return
is passed in as an oracle `(code, body)`; `sys.exit(1)` becomes exit
code 1, falling off the end of `main` becomes exit code 0.  The
filesystem is modelled as always accepting writes (the source's
`except`-and-exit branches for OS errors are outside the model); the
caught `IndexError` of an empty CSV record sequence is modelled
explicitly since it does not depend on the filesystem. -/

inductive Event where
  | printLine (s : String)
  | netGet (url : String)
  | netPost (url : String) (payload : JVal)
  | fileWrite (path : String) (content : String)
deriving DecidableEq

/-- Is the event a network request? -/
def Event.isNet : Event → Bool
  | .netGet _ => true
  | .netPost _ _ => true
  | _ => false

/-- Is the event a file write? -/
def Event.isFileWrite : Event → Bool
  | .fileWrite _ _ => true
  | _ => false

structure Outcome where
  events : List Event
  exitCode : Nat
deriving DecidableEq

def BASE_URL : String := "https://jsonplaceholder.typicode.com"

structure RestClient where
  method : String
  endpoint : String
  data : Option String
  output : Option String
deriving DecidableEq

/-- Python `str.lower()` (modelled for the basic Latin range, which is
all the grammar can pass through). -/
def strLower (s : String) : String :=
  String.mk (s.data.map Char.toLower)

/-- `RestClient.__init__`: stores the lowercased method and the raw
endpoint, payload and output arguments. -/
def RestClient.init (method endpoint : String)
    (data output : Option String) : RestClient :=
  ⟨strLower method, endpoint, data, output⟩

/-- Python truthiness of an optional string (`if self.output:`,
`if not self.data:`): absent or empty means falsy. -/
def optStrTruthy : Option String → Bool
  | none => false
  | some s => !(s == "")

/-- `f"HTTP Status Code: {response.status_code}"`. -/
def statusLine (code : Nat) : String :=
  "HTTP Status Code: " ++ natRepr code

/-- `requests.Response.ok`: true unless `raise_for_status()` would raise,
i.e. unless the code is 4xx or 5xx. -/
def response_ok (code : Nat) : Bool :=
  if 400 ≤ code ∧ code < 600 then false else true

/-- `RestClient.save_json`: write the indented JSON and print the
confirmation (the filesystem is modelled as accepting the write). -/
def save_json (output : String) (data : JVal) : Outcome :=
  { events := [.fileWrite output (json_dumps_indent4 data),
               .printLine ("Response successfully saved to " ++ output)],
    exitCode := 0 }

/-- The record sequence the CSV export derives from the body
(`if not isinstance(data, list): data = [data]`). -/
def csvRecords : JVal → List JVal
  | .arr xs => xs.toList
  | v => [v]

/-- `RestClient.save_csv`: coerce a non-list body into a one-element
list; take the field names from the first record's keys — an empty
sequence raises `IndexError("list index out of range")`, a non-dict
record an `AttributeError`, both caught by the generic handler and
printed as a file write error; otherwise write the header row and one
row per record and print the confirmation. -/
def save_csv (output : String) (data : JVal) : Outcome :=
  match csvRecords data with
  | [] =>
    { events := [.printLine "File write error: list index out of range"],
      exitCode := 1 }
  | r0 :: _ =>
    match r0 with
    | .obj fs0 =>
      match csvRows fs0.keyList (csvRecords data) with
      | .error e =>
        { events := [.printLine ("File write error: " ++ e)], exitCode := 1 }
      | .ok rows =>
        { events := [.fileWrite output
                       (String.mk (csvRender (fs0.keyList :: rows))),
                     .printLine ("Response successfully saved to " ++ output)],
          exitCode := 0 }
    | .null =>
      { events := [.printLine
          "File write error: 'NoneType' object has no attribute 'keys'"],
        exitCode := 1 }
    | .bool _ =>
      { events := [.printLine
          "File write error: 'bool' object has no attribute 'keys'"],
        exitCode := 1 }
    | .int _ =>
      { events := [.printLine
          "File write error: 'int' object has no attribute 'keys'"],
        exitCode := 1 }
    | .str _ =>
      { events := [.printLine
          "File write error: 'str' object has no attribute 'keys'"],
        exitCode := 1 }
    | .arr _ =>
      { events := [.printLine
          "File write error: 'list' object has no attribute 'keys'"],
        exitCode := 1 }

/-- `RestClient.save_response`: dispatch on the destination's extension;
any extension other than `.json`/`.csv` prints the unsupported-format
error and exits 1 before anything is opened or written. -/
def save_response (output : String) (data : JVal) : Outcome :=
  let ext := splitext_ext output
  if ext == ".json" then save_json output data
  else if ext == ".csv" then save_csv output data
  else
    { events := [.printLine ("Error: Unsupported file format '" ++ ext ++ "'.")],
      exitCode := 1 }

/-- `RestClient.handle_response`: print the status line; a non-`ok`
response prints an error and exits 1; otherwise save to the truthy
output destination, or pretty-print the body. -/
def handle_response (c : RestClient) (code : Nat) (body : JVal) : Outcome :=
  if response_ok code = false then
    { events := [.printLine (statusLine code),
                 .printLine "Error: Request was not successful."],
      exitCode := 1 }
  else if optStrTruthy c.output then
    let o := save_response (c.output.getD "") body
    { events := .printLine (statusLine code) :: o.events,
      exitCode := o.exitCode }
  else
    { events := [.printLine (statusLine code),
                 .printLine (json_dumps_indent4 body)],
      exitCode := 0 }

/-- The `str()` of the `json.JSONDecodeError` raised for a malformed
POST payload; its text ("Expecting value: line 1 column 1 (char 0)", …)
is position-dependent and abstracted to a constant here — no claim
depends on its wording, only on the failure itself. -/
def jsonDecodeErrText : String := "Expecting value"

/-- `RestClient.send_request`: build the URL; GET issues the request
directly; POST first requires a truthy payload
(`ValueError("For POST requests, data is required.")` otherwise) and
parses it with `json.loads` — both before any network call — then posts
the parsed value.  `ValueError`s are printed as `Invalid input: …` with
exit 1.  The oracle `(code, body)` is the response the transport returns
if a request is issued. -/
def send_request (c : RestClient) (code : Nat) (body : JVal) : Outcome :=
  let url := BASE_URL ++ c.endpoint
  if c.method == "get" then
    let o := handle_response c code body
    { events := .netGet url :: o.events, exitCode := o.exitCode }
  else if c.method == "post" then
    if optStrTruthy c.data = false then
      { events := [.printLine
          "Invalid input: For POST requests, data is required."],
        exitCode := 1 }
    else
      match json_loads (c.data.getD "") with
      | none =>
        { events := [.printLine ("Invalid input: " ++ jsonDecodeErrText)],
          exitCode := 1 }
      | some payload =>
        let o := handle_response c code body
        { events := .netPost url payload :: o.events, exitCode := o.exitCode }
  else
    { events := [.printLine
        ("Invalid input: Unsupported HTTP method: " ++ c.method)],
      exitCode := 1 }

/-- The resolved arguments of a successful `parser.parse_args()`. -/
structure ParsedArgs where
  method : String
  endpoint : String
  data : Option String
  output : Option String
deriving DecidableEq

/-- The argparse grammar of `main`: the positional `method` is checked
literally against `choices=["get", "post"]` (argparse tests membership
of the raw token, so the check is case-sensitive); `endpoint` is free
text; `-d`/`-o` are optional.  A failed choice check is argparse's usage
error: the parser prints a diagnostic and exits with status 2. -/
def parse_args (method endpoint : String) (data output : Option String) :
    Except String ParsedArgs :=
  if method == "get" || method == "post" then
    .ok ⟨method, endpoint, data, output⟩
  else
    .error ("argument method: invalid choice: '" ++ method ++
      "' (choose from 'get', 'post')")

/-- `main` after a successful parse: construct the client and send. -/
def runMain (a : ParsedArgs) (code : Nat) (body : JVal) : Outcome :=
  send_request (RestClient.init a.method a.endpoint a.data a.output) code body

/-! ## Lemmas: digits and whitespace -/

theorem isWs_cases (c : Char) (h : isWs c = true) :
    c = ' ' ∨ c = '\n' ∨ c = '\r' ∨ c = '\t' := by
  have := h
  simp [isWs] at this
  tauto

theorem ne_of_isDigit (c lit : Char) (h : c.isDigit = true)
    (h2 : lit.isDigit = false) : c ≠ lit := by
  intro he; rw [he, h2] at h; cases h

theorem isWs_eq_false_of_isDigit (c : Char) (h : c.isDigit = true) :
    isWs c = false := by
  by_contra hne
  have hw : isWs c = true := by revert hne; cases isWs c <;> simp
  rcases isWs_cases c hw with h' | h' | h' | h' <;> subst h' <;> cases h

theorem digitChar_isDigit (d : Nat) (h : d < 10) :
    (digitChar d).isDigit = true := by
  interval_cases d <;> decide

theorem digitChar_toNat (d : Nat) (h : d < 10) :
    (digitChar d).toNat = 48 + d := by
  interval_cases d <;> decide

theorem digitChar_ne_zero (d : Nat) (h : d < 10) (h0 : 0 < d) :
    digitChar d ≠ '0' := by
  interval_cases d <;> first | omega | decide

theorem digitsToNat_append_one (l : List Char) (x : Char) :
    digitsToNat (l ++ [x]) = digitsToNat l * 10 + (x.toNat - 48) := by
  simp [digitsToNat, List.foldl_append]

theorem natDigitsAux_spec (f : Nat) : ∀ n, n < f →
    ∃ c t, natDigitsAux f n = c :: t ∧ (∀ x ∈ c :: t, x.isDigit = true) ∧
      digitsToNat (c :: t) = n ∧ (0 < n → c ≠ '0') := by
  induction f with
  | zero => intro n h; omega
  | succ f ih =>
    intro n h
    by_cases h10 : n < 10
    · refine ⟨digitChar n, [], by simp [natDigitsAux, h10], ?_, ?_, ?_⟩
      · intro x hx
        rcases List.mem_singleton.mp hx with rfl
        exact digitChar_isDigit n h10
      · simp [digitsToNat, digitChar_toNat n h10]
      · intro h0; exact digitChar_ne_zero n h10 h0
    · obtain ⟨c, t, he, hdig, hval, hz⟩ := ih (n / 10) (by omega)
      refine ⟨c, t ++ [digitChar (n % 10)], ?_, ?_, ?_, ?_⟩
      · simp [natDigitsAux, h10, he]
      · intro x hx
        rcases List.mem_cons.mp hx with rfl | hx
        · exact hdig x (by simp)
        · rcases List.mem_append.mp hx with hx | hx
          · exact hdig x (by simp [hx])
          · rcases List.mem_singleton.mp hx with rfl
            exact digitChar_isDigit _ (Nat.mod_lt _ (by omega))
      · have : (c :: (t ++ [digitChar (n % 10)])) =
            (c :: t) ++ [digitChar (n % 10)] := by simp
        rw [this, digitsToNat_append_one, hval,
          digitChar_toNat _ (Nat.mod_lt _ (by omega))]
        omega
      · intro _; exact hz (by omega)

theorem natDigits_spec (n : Nat) :
    ∃ c t, natDigits n = c :: t ∧ (∀ x ∈ c :: t, x.isDigit = true) ∧
      digitsToNat (c :: t) = n ∧ (0 < n → c ≠ '0') :=
  natDigitsAux_spec (n + 1) n (by omega)

theorem takeWhile_append_of_all {α : Type} {p : α → Bool} (l rest : List α)
    (hl : ∀ x ∈ l, p x = true)
    (hr : ∀ c, rest.head? = some c → p c = false) :
    (l ++ rest).takeWhile p = l ∧ (l ++ rest).dropWhile p = rest := by
  induction l with
  | nil =>
    cases rest with
    | nil => simp
    | cons c r =>
      have := hr c rfl
      simp [List.takeWhile_cons, List.dropWhile_cons, this]
  | cons x xs ih =>
    have hx := hl x (by simp)
    have := ih (fun y hy => hl y (by simp [hy]))
    simp [List.takeWhile_cons, List.dropWhile_cons, hx, this.1, this.2]

theorem parseJsonUInt_natDigits (n : Nat) (rest : List Char)
    (hr : ∀ c, rest.head? = some c → c.isDigit = false) :
    parseJsonUInt (natDigits n ++ rest) = some (n, rest) := by
  by_cases h0 : n = 0
  · subst h0
    have : natDigits 0 = ['0'] := by decide
    rw [this]
    simp [parseJsonUInt]
  · obtain ⟨c, t, he, hdig, hval, hz⟩ := natDigits_spec n
    rw [he]
    have hc0 : ¬(c = '0') := hz (by omega)
    have hcd : c.isDigit = true := hdig c (by simp)
    have htw := takeWhile_append_of_all (p := Char.isDigit) (c :: t) rest hdig hr
    simp only [List.cons_append, parseJsonUInt, if_neg hc0, hcd, if_pos rfl]
    rw [show c :: (t ++ rest) = (c :: t) ++ rest from by simp] at *
    rw [htw.1, htw.2, hval]
    simp

/-! ## Lemmas: string escaping round trip -/

theorem hexVal_hexDig (d : Nat) (h : d < 16) : hexVal (hexDig d) = some d := by
  interval_cases d <;> decide

theorem char_valid_nat (c : Char) :
    c.toNat < 55296 ∨ (57343 < c.toNat ∧ c.toNat < 1114112) := c.valid

theorem escChar_length_pos (c : Char) : 0 < (escChar c).length := by
  unfold escChar
  repeat' split
  all_goals simp [hex4]

/-- Unfolding of `parseStr` at a `\uXXXX` escape. -/
theorem parseStr_u (f : Nat) (a1 a2 a3 a4 : Char) (r2 : List Char) :
    parseStr (f + 1) ('\\' :: 'u' :: a1 :: a2 :: a3 :: a4 :: r2) =
      (match hexVal a1, hexVal a2, hexVal a3, hexVal a4 with
       | some a, some b, some c3, some d4 =>
         if 55296 ≤ a * 4096 + b * 256 + c3 * 16 + d4 ∧
             a * 4096 + b * 256 + c3 * 16 + d4 < 56320 then
           match r2 with
           | '\\' :: 'u' :: g1 :: g2 :: g3 :: g4 :: r3 =>
             match hexVal g1, hexVal g2, hexVal g3, hexVal g4 with
             | some a', some b', some c', some d' =>
               if 56320 ≤ a' * 4096 + b' * 256 + c' * 16 + d' ∧
                   a' * 4096 + b' * 256 + c' * 16 + d' < 57344 then
                 (parseStr f r3).map (fun p =>
                   (Char.ofNat (65536 +
                     (a * 4096 + b * 256 + c3 * 16 + d4 - 55296) * 1024 +
                     (a' * 4096 + b' * 256 + c' * 16 + d' - 56320)) :: p.1,
                     p.2))
               else none
             | _, _, _, _ => none
           | _ => none
         else if 56320 ≤ a * 4096 + b * 256 + c3 * 16 + d4 ∧
             a * 4096 + b * 256 + c3 * 16 + d4 < 57344 then none
         else (parseStr f r2).map (fun p =>
           (Char.ofNat (a * 4096 + b * 256 + c3 * 16 + d4) :: p.1, p.2))
       | _, _, _, _ => none) := rfl

theorem parseStr_escChars : ∀ (s : List Char) (fuel : Nat) (rest : List Char),
    (escChars s).length < fuel →
    parseStr fuel (escChars s ++ '"' :: rest) = some (s, rest) := by
  intro s
  induction s with
  | nil =>
    intro fuel rest hf
    match fuel, hf with
    | f + 1, _ => simp [escChars, parseStr]
  | cons c cs ih =>
    intro fuel rest hf
    have hlen : (escChars (c :: cs)).length =
        (escChar c).length + (escChars cs).length := by
      simp [escChars]
    have hpos := escChar_length_pos c
    match fuel, hf with
    | f + 1, hf =>
    have hf' : (escChars cs).length < f := by omega
    have IH := ih f rest hf'
    have hv := char_valid_nat c
    show parseStr (f + 1) (escChars (c :: cs) ++ '"' :: rest) = _
    rw [show escChars (c :: cs) = escChar c ++ escChars cs from rfl]
    by_cases h1 : c = '"'
    · subst h1; simp [escChar, parseStr, IH]
    · by_cases h2 : c = '\\'
      · subst h2; simp [escChar, parseStr, IH]
      · by_cases h3 : c = '\n'
        · subst h3; simp [escChar, parseStr, IH]
        · by_cases h4 : c = '\r'
          · subst h4; simp [escChar, parseStr, IH]
          · by_cases h5 : c = '\t'
            · subst h5; simp [escChar, parseStr, IH]
            · by_cases h6 : c.toNat = 8
              · have hc : c = Char.ofNat 8 := by
                  rw [← h6, Char.ofNat_toNat]
                rw [show escChar c = ['\\', 'b'] from by
                  simp [escChar, h1, h2, h3, h4, h5, h6]]
                simp [parseStr, IH, hc]
              · by_cases h7 : c.toNat = 12
                · have hc : c = Char.ofNat 12 := by
                    rw [← h7, Char.ofNat_toNat]
                  rw [show escChar c = ['\\', 'f'] from by
                    simp [escChar, h1, h2, h3, h4, h5, h6, h7]]
                  simp [parseStr, IH, hc]
                · by_cases h8 : 32 ≤ c.toNat ∧ c.toNat ≤ 126
                  · rw [show escChar c = [c] from by
                      simp [escChar, h1, h2, h3, h4, h5, h6, h7, h8]]
                    simp [parseStr, h1, h2, h8.1, IH]
                  · by_cases h9 : c.toNat < 65536
                    · rw [show escChar c ++ escChars cs ++ '"' :: rest =
                          '\\' :: 'u' :: hexDig (c.toNat / 4096 % 16) ::
                            hexDig (c.toNat / 256 % 16) ::
                            hexDig (c.toNat / 16 % 16) ::
                            hexDig (c.toNat % 16) ::
                            (escChars cs ++ '"' :: rest) from by
                        simp [escChar, hex4, h1, h2, h3, h4, h5, h6, h7, h8, h9]]
                      rw [parseStr_u]
                      have ha := hexVal_hexDig (c.toNat / 4096 % 16) (by omega)
                      have hb := hexVal_hexDig (c.toNat / 256 % 16) (by omega)
                      have hc3 := hexVal_hexDig (c.toNat / 16 % 16) (by omega)
                      have hd := hexVal_hexDig (c.toNat % 16) (by omega)
                      rw [ha, hb, hc3, hd]
                      have hn : c.toNat / 4096 % 16 * 4096 + c.toNat / 256 % 16 * 256 + c.toNat / 16 % 16 * 16 + c.toNat % 16 =
                          c.toNat := by omega
                      have hs1 : ¬(55296 ≤ c.toNat ∧ c.toNat < 56320) := by omega
                      have hs2 : ¬(56320 ≤ c.toNat ∧ c.toNat < 57344) := by omega
                      simp only [hn, if_neg hs1, if_neg hs2]
                      simp [IH, Char.ofNat_toNat]
                    · rw [show escChar c ++ escChars cs ++ '"' :: rest =
                          '\\' :: 'u' ::
                            hexDig ((55296 + (c.toNat - 65536) / 1024) / 4096 % 16) ::
                            hexDig ((55296 + (c.toNat - 65536) / 1024) / 256 % 16) ::
                            hexDig ((55296 + (c.toNat - 65536) / 1024) / 16 % 16) ::
                            hexDig ((55296 + (c.toNat - 65536) / 1024) % 16) ::
                            ('\\' :: 'u' ::
                              hexDig ((56320 + (c.toNat - 65536) % 1024) / 4096 % 16) ::
                              hexDig ((56320 + (c.toNat - 65536) % 1024) / 256 % 16) ::
                              hexDig ((56320 + (c.toNat - 65536) % 1024) / 16 % 16) ::
                              hexDig ((56320 + (c.toNat - 65536) % 1024) % 16) ::
                              (escChars cs ++ '"' :: rest)) from by
                        simp [escChar, hex4, h1, h2, h3, h4, h5, h6, h7, h8, h9]]
                      rw [parseStr_u]
                      set thi : Nat := 55296 + (c.toNat - 65536) / 1024 with hthi
                      set tlo : Nat := 56320 + (c.toNat - 65536) % 1024 with htlo
                      rw [hexVal_hexDig (thi / 4096 % 16) (by omega),
                        hexVal_hexDig (thi / 256 % 16) (by omega),
                        hexVal_hexDig (thi / 16 % 16) (by omega),
                        hexVal_hexDig (thi % 16) (by omega)]
                      have hn : thi / 4096 % 16 * 4096 + thi / 256 % 16 * 256 +
                          thi / 16 % 16 * 16 + thi % 16 = thi := by omega
                      have hs1 : 55296 ≤ thi ∧ thi < 56320 := by omega
                      simp only [hn, if_pos hs1]
                      rw [hexVal_hexDig (tlo / 4096 % 16) (by omega),
                        hexVal_hexDig (tlo / 256 % 16) (by omega),
                        hexVal_hexDig (tlo / 16 % 16) (by omega),
                        hexVal_hexDig (tlo % 16) (by omega)]
                      have hm : tlo / 4096 % 16 * 4096 + tlo / 256 % 16 * 256 +
                          tlo / 16 % 16 * 16 + tlo % 16 = tlo := by omega
                      have hs2 : 56320 ≤ tlo ∧ tlo < 57344 := by omega
                      simp only [hm, if_pos hs2]
                      have hchar : 65536 + (thi - 55296) * 1024 + (tlo - 56320) =
                          c.toNat := by omega
                      simp [IH, hchar, Char.ofNat_toNat]

/-! ## Lemmas: whitespace skipping and serializer shapes -/

theorem skipWs_append (pre l : List Char) (h : ∀ c ∈ pre, isWs c = true) :
    skipWs (pre ++ l) = skipWs l := by
  induction pre with
  | nil => simp
  | cons c cs ih =>
    have hc := h c (by simp)
    simp only [skipWs, List.cons_append, List.dropWhile_cons, hc, if_pos]
    exact ih (fun x hx => h x (by simp [hx]))

theorem skipWs_cons_false (c : Char) (l : List Char) (h : isWs c = false) :
    skipWs (c :: l) = c :: l := by
  simp [skipWs, List.dropWhile_cons, h]

theorem nlIndent_ws (d : Nat) : ∀ c ∈ nlIndent d, isWs c = true := by
  intro c hc
  simp only [nlIndent, List.mem_cons, List.mem_replicate] at hc
  rcases hc with rfl | ⟨-, rfl⟩ <;> decide

theorem nlIndent_length (d : Nat) : (nlIndent d).length = 1 + 4 * d := by
  simp [nlIndent]; omega

theorem parseVal_ws_drop (fuel : Nat) (pre cs : List Char)
    (h : ∀ c ∈ pre, isWs c = true) :
    parseVal fuel (pre ++ cs) = parseVal fuel cs := by
  cases fuel with
  | zero => rfl
  | succ f => simp only [parseVal]; rw [skipWs_append pre cs h]

theorem parseArrRest_ws_drop (fuel : Nat) (pre cs : List Char)
    (h : ∀ c ∈ pre, isWs c = true) :
    parseArrRest fuel (pre ++ cs) = parseArrRest fuel cs := by
  cases fuel with
  | zero => rfl
  | succ f => simp only [parseArrRest]; rw [skipWs_append pre cs h]

theorem parseObjRest_ws_drop (fuel : Nat) (pre cs : List Char)
    (h : ∀ c ∈ pre, isWs c = true) :
    parseObjRest fuel (pre ++ cs) = parseObjRest fuel cs := by
  cases fuel with
  | zero => rfl
  | succ f => simp only [parseObjRest]; rw [skipWs_append pre cs h]

theorem ser_head (v : JVal) (d : Nat) :
    ∃ c t, ser v d = c :: t ∧ c ≠ ']' ∧ c ≠ '}' ∧ isWs c = false := by
  cases v with
  | null => refine ⟨'n', _, rfl, ?_, ?_, ?_⟩ <;> decide
  | bool b =>
    cases b with
    | true => refine ⟨'t', _, rfl, ?_, ?_, ?_⟩ <;> decide
    | false => refine ⟨'f', _, rfl, ?_, ?_, ?_⟩ <;> decide
  | int n =>
    by_cases hn : n < 0
    · refine ⟨'-', natDigits n.natAbs, ?_, by decide, by decide, by decide⟩
      rw [show ser (.int n) d = intRepr n from rfl, intRepr, if_pos hn]
    · obtain ⟨c, t, he, hdig, -, -⟩ := natDigits_spec n.toNat
      have hc := hdig c (by simp)
      refine ⟨c, t, ?_, ne_of_isDigit c ']' hc (by decide),
        ne_of_isDigit c '}' hc (by decide),
        isWs_eq_false_of_isDigit c hc⟩
      rw [show ser (.int n) d = intRepr n from rfl, intRepr, if_neg hn]
      exact he
  | str s => refine ⟨'"', escChars s ++ ['"'], rfl, ?_, ?_, ?_⟩ <;> decide
  | arr xs =>
    cases xs with
    | nil => refine ⟨'[', _, rfl, ?_, ?_, ?_⟩ <;> decide
    | cons x xs => refine ⟨'[', _, rfl, ?_, ?_, ?_⟩ <;> decide
  | obj fs =>
    cases fs with
    | nil => refine ⟨'{', _, rfl, ?_, ?_, ?_⟩ <;> decide
    | cons k v fs => refine ⟨'{', _, rfl, ?_, ?_, ?_⟩ <;> decide

theorem serTailA_ndh (xs : JArr) (d e : Nat) (rest : List Char) :
    ∀ c, (serTailA xs d ++ nlIndent e ++ ']' :: rest).head? = some c →
      c.isDigit = false := by
  intro c hc
  cases xs with
  | nil => simp [serTailA, nlIndent] at hc; subst hc; decide
  | cons x xs => simp [serTailA, nlIndent] at hc; subst hc; decide

theorem serTailO_ndh (fs : JObj) (d e : Nat) (rest : List Char) :
    ∀ c, (serTailO fs d ++ nlIndent e ++ '}' :: rest).head? = some c →
      c.isDigit = false := by
  intro c hc
  cases fs with
  | nil => simp [serTailO, nlIndent] at hc; subst hc; decide
  | cons k v fs => simp [serTailO, nlIndent, encStr] at hc; subst hc; decide

/-! ## Lemmas: `dict(pairs)` on distinct keys -/

/-- Concatenation of key/value sequences. -/
def JObj.append : JObj → JObj → JObj
  | .nil, ps => ps
  | .cons k v tl, ps => .cons k v (tl.append ps)

theorem JObj.append_nil : ∀ (a : JObj), a.append .nil = a
  | .nil => rfl
  | .cons k v tl => by simp [JObj.append, JObj.append_nil tl]

theorem JObj.hasKey_append : ∀ (a : JObj) (b : JObj) (k : List Char),
    (a.append b).hasKey k = (a.hasKey k || b.hasKey k)
  | .nil, b, k => by simp [JObj.append, JObj.hasKey]
  | .cons k' v tl, b, k => by
    by_cases h : k' == k <;>
      simp [JObj.append, JObj.hasKey, h, JObj.hasKey_append tl b k]

theorem JObj.setItem_of_not_hasKey : ∀ (a : JObj) (k : List Char) (v : JVal),
    a.hasKey k = false → a.setItem k v = a.append (.cons k v .nil)
  | .nil, k, v, _ => rfl
  | .cons k' v' tl, k, v, h => by
    simp only [JObj.hasKey, Bool.or_eq_false_iff] at h
    simp [JObj.setItem, JObj.append, h.1,
      JObj.setItem_of_not_hasKey tl k v h.2]

theorem JObj.append_assoc : ∀ (a b c : JObj),
    (a.append b).append c = a.append (b.append c)
  | .nil, _, _ => rfl
  | .cons k v tl, b, c => by simp [JObj.append, JObj.append_assoc tl b c]

theorem JObj.hasKey_eq_mem : ∀ (fs : JObj) (k : List Char),
    fs.hasKey k = true ↔ k ∈ fs.keyList
  | .nil, k => by simp [JObj.hasKey, JObj.keyList]
  | .cons k' v tl, k => by
    simp only [JObj.hasKey, JObj.keyList, Bool.or_eq_true, beq_iff_eq,
      List.mem_cons, JObj.hasKey_eq_mem tl k]
    constructor
    · rintro (rfl | h)
      · exact Or.inl rfl
      · exact Or.inr h
    · rintro (rfl | h)
      · exact Or.inl rfl
      · exact Or.inr h

theorem dictFromPairsAux_wf : ∀ (fs : JObj) (acc : JObj),
    wfKeysO fs = true → (∀ k ∈ fs.keyList, acc.hasKey k = false) →
    dictFromPairsAux acc fs = acc.append fs
  | .nil, acc, _, _ => by simp [dictFromPairsAux, JObj.append_nil]
  | .cons k v tl, acc, hwf, hacc => by
    simp only [wfKeysO, Bool.and_eq_true, Bool.not_eq_true'] at hwf
    obtain ⟨⟨hk, -⟩, hwtl⟩ := hwf
    have hk0 : acc.hasKey k = false := hacc k (by simp [JObj.keyList])
    show dictFromPairsAux (acc.setItem k v) tl = _
    rw [JObj.setItem_of_not_hasKey acc k v hk0]
    rw [dictFromPairsAux_wf tl (acc.append (.cons k v .nil)) hwtl ?_]
    · rw [JObj.append_assoc]
      rfl
    · intro k' hk'
      rw [JObj.hasKey_append]
      have h1 : acc.hasKey k' = false := hacc k' (by simp [JObj.keyList, hk'])
      have h2 : (JObj.cons k v .nil).hasKey k' = false := by
        have hne : ¬(k = k') := by
          intro he
          have hmem := (JObj.hasKey_eq_mem tl k').mpr hk'
          rw [he, hmem] at hk
          simp at hk
        simp [JObj.hasKey, hne]
      simp [h1, h2]

theorem dictFromPairs_of_wf (fs : JObj) (h : wfKeysO fs = true) :
    dictFromPairs fs = fs := by
  unfold dictFromPairs
  rw [dictFromPairsAux_wf fs .nil h (fun k _ => rfl)]
  rfl

/-! ## The JSON round trip -/

mutual
theorem rtV (v : JVal) (d fuel : Nat) (rest : List Char)
    (hwf : wfKeysV v = true) (hfuel : (ser v d).length < fuel)
    (hrest : ∀ c, rest.head? = some c → c.isDigit = false) :
    parseVal fuel (ser v d ++ rest) = some (v, rest) := by
  obtain ⟨f, rfl⟩ : ∃ g, fuel = g + 1 := ⟨fuel - 1, by omega⟩
  cases v with
  | null =>
    show parseVal (f + 1) ('n' :: 'u' :: 'l' :: 'l' :: rest) = _
    simp only [parseVal]
    rw [skipWs_cons_false _ _ (by decide)]
    simp
  | bool b =>
    cases b with
    | true =>
      show parseVal (f + 1) ('t' :: 'r' :: 'u' :: 'e' :: rest) = _
      simp only [parseVal]
      rw [skipWs_cons_false _ _ (by decide)]
      simp
    | false =>
      show parseVal (f + 1) ('f' :: 'a' :: 'l' :: 's' :: 'e' :: rest) = _
      simp only [parseVal]
      rw [skipWs_cons_false _ _ (by decide)]
      simp
  | int n =>
    by_cases hneg : n < 0
    · show parseVal (f + 1) (intRepr n ++ rest) = _
      rw [intRepr, if_pos hneg]
      simp only [List.cons_append, parseVal]
      rw [skipWs_cons_false _ _ (by decide)]
      have e1 := parseJsonUInt_natDigits n.natAbs rest hrest
      simp [e1]
      rw [abs_of_neg hneg, neg_neg]
    · obtain ⟨c, t, he, hdig, -, -⟩ := natDigits_spec n.toNat
      have hc : c.isDigit = true := hdig c (by simp)
      show parseVal (f + 1) (intRepr n ++ rest) = _
      rw [intRepr, if_neg hneg, he]
      simp only [List.cons_append, parseVal]
      rw [skipWs_cons_false _ _ (isWs_eq_false_of_isDigit c hc)]
      have e1 : parseJsonUInt (c :: (t ++ rest)) = some (n.toNat, rest) := by
        rw [show c :: (t ++ rest) = natDigits n.toNat ++ rest from by
          rw [he, List.cons_append]]
        exact parseJsonUInt_natDigits n.toNat rest hrest
      have hcast : ((n.toNat : Int)) = n := by omega
      simp only [if_neg (ne_of_isDigit c 'n' hc (by decide)),
        if_neg (ne_of_isDigit c 't' hc (by decide)),
        if_neg (ne_of_isDigit c 'f' hc (by decide)),
        if_neg (ne_of_isDigit c '"' hc (by decide)),
        if_neg (ne_of_isDigit c '[' hc (by decide)),
        if_neg (ne_of_isDigit c '{' hc (by decide)),
        if_neg (ne_of_isDigit c '-' hc (by decide)),
        if_pos hc]
      simp [e1, hcast]
  | str s =>
    have hlen : (ser (.str s) d).length = (escChars s).length + 2 := by
      simp [ser, encStr]
    show parseVal (f + 1) (('"' :: (escChars s ++ ['"'])) ++ rest) = _
    rw [show ('"' :: (escChars s ++ ['"'])) ++ rest =
      '"' :: (escChars s ++ '"' :: rest) from by simp]
    simp only [parseVal]
    rw [skipWs_cons_false _ _ (by decide)]
    have e1 := parseStr_escChars s f rest (by omega)
    simp [e1]
  | arr xs =>
    cases xs with
    | nil =>
      have hl2 : (ser (.arr .nil) d).length = 2 := by simp [ser]
      obtain ⟨f2, rfl⟩ : ∃ f2, f = f2 + 1 := ⟨f - 1, by omega⟩
      show parseVal (f2 + 1 + 1) ('[' :: ']' :: rest) = _
      simp only [parseVal]
      rw [skipWs_cons_false _ _ (by decide)]
      have e1 : skipWs (']' :: rest) = ']' :: rest :=
        skipWs_cons_false _ _ (by decide)
      simp [parseArrBody, e1]
    | cons x xs =>
      simp only [wfKeysV, wfKeysA, Bool.and_eq_true] at hwf
      have hlen : (ser (.arr (.cons x xs)) d).length =
          1 + (nlIndent (d + 1)).length + (ser x (d + 1)).length +
          (serTailA xs (d + 1)).length + (nlIndent d).length + 1 := by
        simp [ser]; omega
      rw [nlIndent_length, nlIndent_length] at hlen
      obtain ⟨f2, rfl⟩ : ∃ f2, f = f2 + 1 := ⟨f - 1, by omega⟩
      obtain ⟨c, t, he, hne1, -, hnws⟩ := ser_head x (d + 1)
      set X : List Char := serTailA xs (d + 1) ++ nlIndent d ++ ']' :: rest
        with hX
      have e1 : skipWs (nlIndent (d + 1) ++ (ser x (d + 1) ++ X)) =
          c :: (t ++ X) := by
        rw [skipWs_append _ _ (nlIndent_ws (d + 1))]
        rw [show ser x (d + 1) ++ X = c :: (t ++ X) from by
          rw [he, List.cons_append]]
        exact skipWs_cons_false _ _ hnws
      have hne : ((c :: (t ++ X)).head? = some ']') = False := by
        simp [hne1]
      have e2 : parseVal f2 (c :: (t ++ X)) = some (x, X) := by
        rw [show c :: (t ++ X) = ser x (d + 1) ++ X from by
          rw [he, List.cons_append]]
        rw [hX]
        exact rtV x (d + 1) f2 _ hwf.1 (by omega)
          (serTailA_ndh xs (d + 1) d rest)
      have e3 : parseArrRest f2 X = some (xs, rest) := by
        rw [hX]
        exact rtA xs (d + 1) d f2 rest hwf.2 (by omega)
      show parseVal (f2 + 1 + 1)
        (('[' :: (nlIndent (d + 1) ++ ser x (d + 1) ++ serTailA xs (d + 1) ++
          nlIndent d ++ [']'])) ++ rest) = _
      rw [show ('[' :: (nlIndent (d + 1) ++ ser x (d + 1) ++
            serTailA xs (d + 1) ++ nlIndent d ++ [']'])) ++ rest =
          '[' :: (nlIndent (d + 1) ++ (ser x (d + 1) ++ X)) from by
        rw [hX]; simp]
      simp only [parseVal]
      rw [skipWs_cons_false _ _ (by decide)]
      simp [parseArrBody, e1, hne, e2, e3]
      exact hne1
  | obj fs =>
    cases fs with
    | nil =>
      have hl2 : (ser (.obj .nil) d).length = 2 := by simp [ser]
      obtain ⟨f2, rfl⟩ : ∃ f2, f = f2 + 1 := ⟨f - 1, by omega⟩
      show parseVal (f2 + 1 + 1) ('{' :: '}' :: rest) = _
      simp only [parseVal]
      rw [skipWs_cons_false _ _ (by decide)]
      have e1 : skipWs ('}' :: rest) = '}' :: rest :=
        skipWs_cons_false _ _ (by decide)
      simp [parseObjBody, e1, dictFromPairs, dictFromPairsAux]
    | cons k v fs =>
      simp only [wfKeysV, wfKeysO, Bool.and_eq_true, Bool.not_eq_true'] at hwf
      obtain ⟨⟨hk, hwv⟩, hwfs⟩ := hwf
      have hlen : (ser (.obj (.cons k v fs)) d).length =
          1 + (nlIndent (d + 1)).length + ((escChars k).length + 2) + 2 +
          (ser v (d + 1)).length + (serTailO fs (d + 1)).length +
          (nlIndent d).length + 1 := by
        simp [ser, encStr]; omega
      rw [nlIndent_length, nlIndent_length] at hlen
      obtain ⟨f2, rfl⟩ : ∃ f2, f = f2 + 1 := ⟨f - 1, by omega⟩
      set X : List Char := serTailO fs (d + 1) ++ nlIndent d ++ '}' :: rest
        with hX
      have e1 : skipWs (nlIndent (d + 1) ++ ('"' :: (escChars k ++
          '"' :: ':' :: ' ' :: (ser v (d + 1) ++ X)))) =
          '"' :: (escChars k ++ '"' :: ':' :: ' ' :: (ser v (d + 1) ++ X)) := by
        rw [skipWs_append _ _ (nlIndent_ws (d + 1))]
        exact skipWs_cons_false _ _ (by decide)
      have e2 : parseStr f2 (escChars k ++ '"' :: ':' :: ' ' ::
          (ser v (d + 1) ++ X)) =
          some (k, ':' :: ' ' :: (ser v (d + 1) ++ X)) :=
        parseStr_escChars k f2 _ (by omega)
      have e3 : skipWs (':' :: ' ' :: (ser v (d + 1) ++ X)) =
          ':' :: ' ' :: (ser v (d + 1) ++ X) :=
        skipWs_cons_false _ _ (by decide)
      have e4 : parseVal f2 (' ' :: (ser v (d + 1) ++ X)) = some (v, X) := by
        rw [show (' ' :: (ser v (d + 1) ++ X) : List Char) =
          [' '] ++ (ser v (d + 1) ++ X) from rfl]
        rw [parseVal_ws_drop f2 [' '] _
          (by intro c hc; simp at hc; subst hc; decide)]
        rw [hX]
        exact rtV v (d + 1) f2 _ hwv (by omega)
          (serTailO_ndh fs (d + 1) d rest)
      have e5 : parseObjRest f2 X = some (fs, rest) := by
        rw [hX]
        exact rtO fs (d + 1) d f2 rest hwfs (by omega)
      have hdict : dictFromPairs (.cons k v fs) = .cons k v fs :=
        dictFromPairs_of_wf _ (by simp [wfKeysO, hk, hwv, hwfs])
      show parseVal (f2 + 1 + 1)
        (('{' :: (nlIndent (d + 1) ++ encStr k ++ ':' :: ' ' :: ser v (d + 1) ++
          serTailO fs (d + 1) ++ nlIndent d ++ ['}'])) ++ rest) = _
      rw [show ('{' :: (nlIndent (d + 1) ++ encStr k ++ ':' :: ' ' ::
            ser v (d + 1) ++ serTailO fs (d + 1) ++ nlIndent d ++ ['}'])) ++
            rest =
          '{' :: (nlIndent (d + 1) ++ ('"' :: (escChars k ++
            '"' :: ':' :: ' ' :: (ser v (d + 1) ++ X)))) from by
        rw [hX]; simp [encStr]]
      simp only [parseVal]
      rw [skipWs_cons_false _ _ (by decide)]
      simp [parseObjBody, e1, e2, e3, e4, e5, hdict]

theorem rtA (xs : JArr) (d e fuel : Nat) (rest : List Char)
    (hwf : wfKeysA xs = true) (hfuel : (serTailA xs d).length < fuel) :
    parseArrRest fuel (serTailA xs d ++ nlIndent e ++ ']' :: rest) =
      some (xs, rest) := by
  obtain ⟨f, rfl⟩ : ∃ g, fuel = g + 1 := ⟨fuel - 1, by omega⟩
  cases xs with
  | nil =>
    show parseArrRest (f + 1) ([] ++ nlIndent e ++ ']' :: rest) = _
    simp only [List.nil_append, parseArrRest]
    rw [skipWs_append _ _ (nlIndent_ws e)]
    rw [skipWs_cons_false _ _ (by decide)]
    simp
  | cons x xs =>
    simp only [wfKeysA, Bool.and_eq_true] at hwf
    have hlen : (serTailA (.cons x xs) d).length =
        1 + (nlIndent d).length + (ser x d).length +
        (serTailA xs d).length := by
      simp [serTailA]; omega
    rw [nlIndent_length] at hlen
    set X : List Char := serTailA xs d ++ nlIndent e ++ ']' :: rest with hX
    have e2 : parseVal f (nlIndent d ++ (ser x d ++ X)) = some (x, X) := by
      rw [parseVal_ws_drop f _ _ (nlIndent_ws d), hX]
      exact rtV x d f _ hwf.1 (by omega) (serTailA_ndh xs d e rest)
    have e3 : parseArrRest f X = some (xs, rest) := by
      rw [hX]
      exact rtA xs d e f rest hwf.2 (by omega)
    show parseArrRest (f + 1)
      ((',' :: (nlIndent d ++ ser x d ++ serTailA xs d)) ++ nlIndent e ++
        ']' :: rest) = _
    rw [show ((',' :: (nlIndent d ++ ser x d ++ serTailA xs d)) ++
          nlIndent e ++ ']' :: rest) =
        ',' :: (nlIndent d ++ (ser x d ++ X)) from by rw [hX]; simp]
    simp only [parseArrRest]
    rw [skipWs_cons_false _ _ (by decide)]
    simp [e2, e3]

theorem rtO (fs : JObj) (d e fuel : Nat) (rest : List Char)
    (hwf : wfKeysO fs = true) (hfuel : (serTailO fs d).length < fuel) :
    parseObjRest fuel (serTailO fs d ++ nlIndent e ++ '}' :: rest) =
      some (fs, rest) := by
  obtain ⟨f, rfl⟩ : ∃ g, fuel = g + 1 := ⟨fuel - 1, by omega⟩
  cases fs with
  | nil =>
    show parseObjRest (f + 1) ([] ++ nlIndent e ++ '}' :: rest) = _
    simp only [List.nil_append, parseObjRest]
    rw [skipWs_append _ _ (nlIndent_ws e)]
    rw [skipWs_cons_false _ _ (by decide)]
    simp
  | cons k v fs =>
    simp only [wfKeysO, Bool.and_eq_true, Bool.not_eq_true'] at hwf
    obtain ⟨⟨hk, hwv⟩, hwfs⟩ := hwf
    have hlen : (serTailO (.cons k v fs) d).length =
        1 + (nlIndent d).length + ((escChars k).length + 2) + 2 +
        (ser v d).length + (serTailO fs d).length := by
      simp [serTailO, encStr]; omega
    rw [nlIndent_length] at hlen
    set X : List Char := serTailO fs d ++ nlIndent e ++ '}' :: rest with hX
    have e1 : skipWs (nlIndent d ++ ('"' :: (escChars k ++
        '"' :: ':' :: ' ' :: (ser v d ++ X)))) =
        '"' :: (escChars k ++ '"' :: ':' :: ' ' :: (ser v d ++ X)) := by
      rw [skipWs_append _ _ (nlIndent_ws d)]
      exact skipWs_cons_false _ _ (by decide)
    have e2 : parseStr f (escChars k ++ '"' :: ':' :: ' ' ::
        (ser v d ++ X)) = some (k, ':' :: ' ' :: (ser v d ++ X)) :=
      parseStr_escChars k f _ (by omega)
    have e3 : skipWs (':' :: ' ' :: (ser v d ++ X)) =
        ':' :: ' ' :: (ser v d ++ X) :=
      skipWs_cons_false _ _ (by decide)
    have e4 : parseVal f (' ' :: (ser v d ++ X)) = some (v, X) := by
      rw [show (' ' :: (ser v d ++ X) : List Char) =
        [' '] ++ (ser v d ++ X) from rfl]
      rw [parseVal_ws_drop f [' '] _
        (by intro c hc; simp at hc; subst hc; decide)]
      rw [hX]
      exact rtV v d f _ hwv (by omega) (serTailO_ndh fs d e rest)
    have e5 : parseObjRest f X = some (fs, rest) := by
      rw [hX]
      exact rtO fs d e f rest hwfs (by omega)
    show parseObjRest (f + 1)
      ((',' :: (nlIndent d ++ encStr k ++ ':' :: ' ' :: ser v d ++
        serTailO fs d)) ++ nlIndent e ++ '}' :: rest) = _
    rw [show ((',' :: (nlIndent d ++ encStr k ++ ':' :: ' ' :: ser v d ++
          serTailO fs d)) ++ nlIndent e ++ '}' :: rest) =
        ',' :: (nlIndent d ++ ('"' :: (escChars k ++ '"' :: ':' :: ' ' ::
          (ser v d ++ X)))) from by rw [hX]; simp [encStr]]
    simp only [parseObjRest]
    rw [skipWs_cons_false _ _ (by decide)]
    simp [e1, e2, e3, e4, e5]
end

/-- `json.loads (json.dumps v, indent=4)` is the identity on every value
in the image of Python's data model (objects with distinct keys). -/
theorem json_roundtrip (v : JVal) (h : wfKeysV v = true) :
    json_loads (json_dumps_indent4 v) = some v := by
  have h1 : parseVal ((ser v 0).length + 1) (ser v 0 ++ []) = some (v, []) :=
    rtV v 0 _ [] h (by simp) (by intro c hc; simp at hc)
  rw [List.append_nil] at h1
  have hdata : (json_dumps_indent4 v).data = ser v 0 := rfl
  unfold json_loads
  rw [hdata, h1]
  simp [skipWs]

/-! ## Lemmas: the csv round trip -/

theorem csvEscQuotes_length (f : List Char) :
    f.length ≤ (csvEscQuotes f).length := by
  induction f with
  | nil => simp [csvEscQuotes]
  | cons c cs ih =>
    by_cases h : c = '"' <;> simp [csvEscQuotes, h] <;> omega

theorem csvQuotedBody_esc : ∀ (f : List Char) (fuel : Nat) (rest : List Char),
    (csvEscQuotes f).length < fuel → rest.head? ≠ some '"' →
    csvQuotedBody fuel (csvEscQuotes f ++ '"' :: rest) = some (f, rest) := by
  intro f
  induction f with
  | nil =>
    intro fuel rest hf hr
    obtain ⟨g, rfl⟩ : ∃ g, fuel = g + 1 := ⟨fuel - 1, by omega⟩
    show csvQuotedBody (g + 1) ('"' :: rest) = _
    simp only [csvQuotedBody, if_pos rfl, if_neg hr]
    simp
  | cons c cs ih =>
    intro fuel rest hf hr
    by_cases h : c = '"'
    · subst h
      have hlen : (csvEscQuotes ('"' :: cs)).length =
          (csvEscQuotes cs).length + 2 := by simp [csvEscQuotes]
      obtain ⟨g, rfl⟩ : ∃ g, fuel = g + 1 := ⟨fuel - 1, by omega⟩
      rw [show csvEscQuotes ('"' :: cs) ++ '"' :: rest =
        '"' :: '"' :: (csvEscQuotes cs ++ '"' :: rest) from by
          simp [csvEscQuotes]]
      simp only [csvQuotedBody, if_pos rfl, List.head?_cons, List.tail_cons,
        ih g rest (by omega) hr]
      simp
    · have hlen : (csvEscQuotes (c :: cs)).length =
          (csvEscQuotes cs).length + 1 := by simp [csvEscQuotes, h]
      obtain ⟨g, rfl⟩ : ∃ g, fuel = g + 1 := ⟨fuel - 1, by omega⟩
      rw [show csvEscQuotes (c :: cs) ++ '"' :: rest =
        c :: (csvEscQuotes cs ++ '"' :: rest) from by simp [csvEscQuotes, h]]
      simp only [csvQuotedBody, if_neg h, ih g rest (by omega) hr]
      simp

theorem csvSpecial_cases (c : Char) (h : csvSpecial c = false) :
    ¬(c = ',') ∧ ¬(c = '"') ∧ ¬(c = '\r') ∧ ¬(c = '\n') := by
  simp [csvSpecial] at h
  tauto

theorem csvUnquoted_of_clean (f rest : List Char)
    (hf : f.any csvSpecial = false)
    (hrest : rest.head? = some ',' ∨ rest.head? = some '\r' ∨ rest = []) :
    csvUnquoted (f ++ rest) = (f, rest) := by
  have hall : ∀ x ∈ f, (!(x == ',' || x == '\r')) = true := by
    intro x hx
    have := csvSpecial_cases x (by simpa using List.any_eq_false.mp hf x hx)
    simp [this.1, this.2.2.1]
  have hhead : ∀ c, rest.head? = some c → (!(c == ',' || c == '\r')) = false := by
    intro c hc
    rcases hrest with h | h | h
    · rw [hc] at h; simp at h; subst h; decide
    · rw [hc] at h; simp at h; subst h; decide
    · subst h; simp at hc
  have := takeWhile_append_of_all (p := fun c => !(c == ',' || c == '\r'))
    f rest hall hhead
  unfold csvUnquoted
  rw [this.1, this.2]

theorem fieldsRT : ∀ (fs : List (List Char)) (n fuel : Nat) (rest : List Char),
    fs ≠ [] → fs.length < fuel →
    csvParseFields fuel (csvRenderFieldsAux n fs ++ '\r' :: '\n' :: rest) =
      some (fs, rest)
  | [], _, _, _, hne, _ => absurd rfl hne
  | [f], n, fuel, rest, _, hfuel => by
    obtain ⟨g, rfl⟩ : ∃ g, fuel = g + 1 := ⟨fuel - 1, by omega⟩
    show csvParseFields (g + 1) (csvRenderField n f ++ '\r' :: '\n' :: rest) = _
    by_cases hq : (f.any csvSpecial || (f.isEmpty && n == 1)) = true
    · rw [show csvRenderField n f ++ '\r' :: '\n' :: rest =
        '"' :: (csvEscQuotes f ++ '"' :: ('\r' :: '\n' :: rest)) from by
          simp [csvRenderField, hq]]
      have e1 : csvQuotedBody
          ((csvEscQuotes f ++ '"' :: ('\r' :: '\n' :: rest)).length + 1)
          (csvEscQuotes f ++ '"' :: ('\r' :: '\n' :: rest)) =
          some (f, '\r' :: '\n' :: rest) :=
        csvQuotedBody_esc f _ _ (by simp; omega) (by simp)
      simp only [csvParseFields, List.head?_cons, if_pos rfl, List.tail_cons,
        e1]
      simp
    · have hq' : f.any csvSpecial = false := by
        rcases Bool.or_eq_false_iff.mp (Bool.not_eq_true _ ▸ hq : _) with ⟨h1, -⟩
        exact h1
      rw [show csvRenderField n f = f from by simp [csvRenderField, hq]]
      have hne : ¬((f ++ '\r' :: '\n' :: rest).head? = some '"') := by
        cases f with
        | nil => simp
        | cons c0 t0 =>
          have := csvSpecial_cases c0
            (by simpa using List.any_eq_false.mp hq' c0 (by simp))
          simp [this.2.1]
      have e1 : csvUnquoted (f ++ '\r' :: '\n' :: rest) =
          (f, '\r' :: '\n' :: rest) :=
        csvUnquoted_of_clean f _ hq' (by simp)
      simp only [csvParseFields, if_neg hne, e1]
  | f :: f2 :: fs, n, fuel, rest, _, hfuel => by
    obtain ⟨g, rfl⟩ : ∃ g, fuel = g + 1 := ⟨fuel - 1, by omega⟩
    have IH := fieldsRT (f2 :: fs) n g rest (by simp) (by
      simp at hfuel ⊢; omega)
    show csvParseFields (g + 1) ((csvRenderField n f ++
      ',' :: csvRenderFieldsAux n (f2 :: fs)) ++ '\r' :: '\n' :: rest) = _
    by_cases hq : (f.any csvSpecial || (f.isEmpty && n == 1)) = true
    · rw [show (csvRenderField n f ++ ',' :: csvRenderFieldsAux n (f2 :: fs)) ++
        '\r' :: '\n' :: rest =
        '"' :: (csvEscQuotes f ++ '"' ::
          (',' :: (csvRenderFieldsAux n (f2 :: fs) ++ '\r' :: '\n' :: rest)))
        from by simp [csvRenderField, hq]]
      have e1 : csvQuotedBody
          ((csvEscQuotes f ++ '"' ::
            (',' :: (csvRenderFieldsAux n (f2 :: fs) ++
              '\r' :: '\n' :: rest))).length + 1)
          (csvEscQuotes f ++ '"' ::
            (',' :: (csvRenderFieldsAux n (f2 :: fs) ++
              '\r' :: '\n' :: rest))) =
          some (f, ',' :: (csvRenderFieldsAux n (f2 :: fs) ++
            '\r' :: '\n' :: rest)) :=
        csvQuotedBody_esc f _ _ (by simp; omega) (by simp)
      simp only [csvParseFields, List.head?_cons, if_pos rfl, List.tail_cons,
        e1, IH]
      simp
    · have hq' : f.any csvSpecial = false := by
        rcases Bool.or_eq_false_iff.mp (Bool.not_eq_true _ ▸ hq : _) with ⟨h1, -⟩
        exact h1
      rw [show (csvRenderField n f ++ ',' :: csvRenderFieldsAux n (f2 :: fs)) ++
        '\r' :: '\n' :: rest =
        f ++ (',' :: (csvRenderFieldsAux n (f2 :: fs) ++ '\r' :: '\n' :: rest))
        from by simp [csvRenderField, hq]]
      have hne : ¬((f ++ (',' :: (csvRenderFieldsAux n (f2 :: fs) ++
          '\r' :: '\n' :: rest))).head? = some '"') := by
        cases f with
        | nil => simp
        | cons c0 t0 =>
          have := csvSpecial_cases c0
            (by simpa using List.any_eq_false.mp hq' c0 (by simp))
          simp [this.2.1]
      have e1 : csvUnquoted (f ++ (',' :: (csvRenderFieldsAux n (f2 :: fs) ++
          '\r' :: '\n' :: rest))) =
          (f, ',' :: (csvRenderFieldsAux n (f2 :: fs) ++
            '\r' :: '\n' :: rest)) :=
        csvUnquoted_of_clean f _ hq' (by simp)
      simp only [csvParseFields, if_neg hne, e1, IH]
      simp

theorem csvRenderFieldsAux_min_length : ∀ (n : Nat) (fs : List (List Char)),
    fs.length ≤ (csvRenderFieldsAux n fs).length + 1
  | _, [] => by simp [csvRenderFieldsAux]
  | n, [f] => by
    show 1 ≤ (csvRenderFieldsAux n [f]).length + 1
    omega
  | n, f :: f2 :: fs => by
    have ih := csvRenderFieldsAux_min_length n (f2 :: fs)
    show (f :: f2 :: fs).length ≤
      (csvRenderField n f ++ ',' :: csvRenderFieldsAux n (f2 :: fs)).length + 1
    simp at ih ⊢
    omega

theorem csvRenderRow_head (f0 : List Char) (fs : List (List Char))
    (X : List Char) :
    ∃ c t, csvRenderRow (f0 :: fs) ++ X = c :: t ∧ ¬(c = '\r') := by
  by_cases hq : (f0.any csvSpecial ||
      (f0.isEmpty && ((f0 :: fs).length == 1))) = true
  · cases fs with
    | nil =>
      refine ⟨'"', csvEscQuotes f0 ++ ['"'] ++ ['\r', '\n'] ++ X, ?_, by decide⟩
      rw [show csvRenderRow [f0] = csvRenderField 1 f0 ++ ['\r', '\n'] from
        rfl]
      rw [show csvRenderField 1 f0 = '"' :: (csvEscQuotes f0 ++ ['"']) from by
        simp only [csvRenderField]
        rw [if_pos (by simpa using hq)]
        simp]
      simp
    | cons f2 fs' =>
      refine ⟨'"', csvEscQuotes f0 ++ ['"'] ++
        (',' :: csvRenderFieldsAux (f0 :: f2 :: fs').length (f2 :: fs')) ++
        ['\r', '\n'] ++ X, ?_, by decide⟩
      rw [show csvRenderRow (f0 :: f2 :: fs') =
        (csvRenderField (f0 :: f2 :: fs').length f0 ++
          ',' :: csvRenderFieldsAux (f0 :: f2 :: fs').length (f2 :: fs')) ++
        ['\r', '\n'] from rfl]
      rw [show csvRenderField (f0 :: f2 :: fs').length f0 =
        '"' :: (csvEscQuotes f0 ++ ['"']) from by
        simp only [csvRenderField]
        rw [if_pos (by simpa using hq)]
        simp]
      simp
  · have hq' : f0.any csvSpecial = false ∧
        (f0.isEmpty && ((f0 :: fs).length == 1)) = false := by
      have := Bool.not_eq_true _ ▸ hq
      exact Bool.or_eq_false_iff.mp this
    cases f0 with
    | nil =>
      cases fs with
      | nil => simp at hq'
      | cons f2 fs' =>
        refine ⟨',', csvRenderFieldsAux ([] :: f2 :: fs').length (f2 :: fs') ++
          ['\r', '\n'] ++ X, ?_, by decide⟩
        rw [show csvRenderRow ([] :: f2 :: fs') =
          (csvRenderField ([] :: f2 :: fs').length [] ++
            ',' :: csvRenderFieldsAux ([] :: f2 :: fs').length (f2 :: fs')) ++
          ['\r', '\n'] from rfl]
        rw [show csvRenderField ([] :: f2 :: fs').length [] = [] from by
          simp only [csvRenderField]
          rw [if_neg (by simp at hq' ⊢)]]
        simp
    | cons c0 t0 =>
      have hc0 := csvSpecial_cases c0
        (by simpa using List.any_eq_false.mp hq'.1 c0 (by simp))
      cases fs with
      | nil =>
        refine ⟨c0, t0 ++ ['\r', '\n'] ++ X, ?_, hc0.2.2.1⟩
        rw [show csvRenderRow [c0 :: t0] =
          csvRenderField 1 (c0 :: t0) ++ ['\r', '\n'] from rfl]
        rw [show csvRenderField 1 (c0 :: t0) = c0 :: t0 from by
          simp only [csvRenderField]
          rw [if_neg (by simpa using hq)]]
        simp
      | cons f2 fs' =>
        refine ⟨c0, t0 ++
          (',' :: csvRenderFieldsAux ((c0 :: t0) :: f2 :: fs').length
            (f2 :: fs')) ++ ['\r', '\n'] ++ X, ?_, hc0.2.2.1⟩
        rw [show csvRenderRow ((c0 :: t0) :: f2 :: fs') =
          (csvRenderField ((c0 :: t0) :: f2 :: fs').length (c0 :: t0) ++
            ',' :: csvRenderFieldsAux ((c0 :: t0) :: f2 :: fs').length
              (f2 :: fs')) ++ ['\r', '\n'] from rfl]
        rw [show csvRenderField ((c0 :: t0) :: f2 :: fs').length (c0 :: t0) =
          c0 :: t0 from by
          simp only [csvRenderField]
          rw [if_neg (by simpa using hq)]]
        simp

theorem rowsRT : ∀ (rows : List (List (List Char))) (fuel : Nat),
    rows.length < fuel → csvParseRows fuel (csvRender rows) = some rows
  | [], fuel, h => by
    obtain ⟨g, rfl⟩ : ∃ g, fuel = g + 1 := ⟨fuel - 1, by omega⟩
    simp [csvRender, csvParseRows]
  | [] :: rows, fuel, h => by
    obtain ⟨g, rfl⟩ : ∃ g, fuel = g + 1 := ⟨fuel - 1, by omega⟩
    have IH := rowsRT rows g (by simp at h ⊢; omega)
    show csvParseRows (g + 1) (csvRenderRow [] ++ csvRender rows) = _
    rw [show csvRenderRow [] ++ csvRender rows =
      '\r' :: '\n' :: csvRender rows from by
        simp [csvRenderRow, csvRenderFieldsAux]]
    simp only [csvParseRows]
    simp [IH]
  | (f0 :: fs) :: rows, fuel, h => by
    obtain ⟨g, rfl⟩ : ∃ g, fuel = g + 1 := ⟨fuel - 1, by omega⟩
    have IH := rowsRT rows g (by simp at h ⊢; omega)
    obtain ⟨c, t, he, hc⟩ := csvRenderRow_head f0 fs (csvRender rows)
    show csvParseRows (g + 1) (csvRenderRow (f0 :: fs) ++ csvRender rows) = _
    rw [he]
    simp only [csvParseRows]
    rw [if_neg (by simp [hc] : ¬(c = '\r' ∧ t.head? = some '\n'))]
    rw [show (c :: t : List Char) =
      csvRenderFieldsAux (f0 :: fs).length (f0 :: fs) ++
        '\r' :: '\n' :: csvRender rows from by
      rw [← he]
      show csvRenderRow (f0 :: fs) ++ csvRender rows = _
      simp [csvRenderRow]]
    have hmin := csvRenderFieldsAux_min_length (f0 :: fs).length (f0 :: fs)
    have e1 := fieldsRT (f0 :: fs) (f0 :: fs).length
      ((csvRenderFieldsAux (f0 :: fs).length (f0 :: fs) ++
        '\r' :: '\n' :: csvRender rows).length + 1)
      (csvRender rows) (by simp)
      (by simp at hmin ⊢; omega)
    rw [e1]
    simp [IH]

theorem csvRender_length : ∀ rows : List (List (List Char)),
    rows.length ≤ (csvRender rows).length
  | [] => by simp [csvRender]
  | row :: rows => by
    have h1 := csvRender_length rows
    have h2 : 2 ≤ (csvRenderRow row).length := by simp [csvRenderRow]
    show (row :: rows).length ≤ (csvRenderRow row ++ csvRender rows).length
    simp
    omega

/-- `csv.reader` inverts `csv.writer` on every row list. -/
theorem csv_roundtrip (rows : List (List (List Char))) :
    csvParse (csvRender rows) = some rows :=
  rowsRT rows ((csvRender rows).length + 1)
    (by have := csvRender_length rows; omega)

/-! ## Lemmas: the CSV export on uniform records -/

/-- The row `DictWriter` emits for one record whose keys coincide with
the field names: its values, in order, rendered as csv fields. -/
def recordRow : JVal → List (List Char)
  | .obj g => g.valList.map csvField
  | _ => []

theorem JObj.getD_keys_map : ∀ (g : JObj), g.keyList.Nodup →
    g.keyList.map (fun k => g.getD k .null) = g.valList
  | .nil, _ => rfl
  | .cons k v tl, hnd => by
    obtain ⟨hk, hnd'⟩ := List.nodup_cons.mp hnd
    simp only [JObj.keyList, JObj.valList, List.map_cons, List.cons.injEq]
    constructor
    · simp [JObj.getD]
    · have hc : ∀ k' ∈ tl.keyList,
          (JObj.cons k v tl).getD k' .null = tl.getD k' .null := by
        intro k' hk'
        have hne : ¬(k == k') = true := by
          simp only [beq_iff_eq]
          rintro rfl
          exact hk hk'
        simp [JObj.getD, hne]
      rw [List.map_congr_left hc]
      exact JObj.getD_keys_map tl hnd'

theorem dictToRow_of_keys (ks : List (List Char)) (g : JObj)
    (h : g.keyList = ks) (hnd : ks.Nodup) :
    dictToRow ks g = .ok (g.valList.map csvField) := by
  subst h
  have hall : (g.keyList.any fun k => !g.keyList.contains k) = false := by
    rw [List.any_eq_false]
    intro k hk
    simp [List.contains, hk]
  unfold dictToRow
  rw [hall]
  simp only [Bool.false_eq_true, if_false]
  rw [show (fun k => csvField (g.getD k .null)) =
    csvField ∘ (fun k => g.getD k .null) from rfl]
  rw [← List.map_map, JObj.getD_keys_map g hnd]

theorem csvRows_uniform : ∀ (rs : List JVal) (ks : List (List Char)),
    ks.Nodup → (∀ r ∈ rs, ∃ g : JObj, r = .obj g ∧ g.keyList = ks) →
    csvRows ks rs = .ok (rs.map recordRow)
  | [], _, _, _ => rfl
  | r :: rs, ks, hnd, hall => by
    obtain ⟨g, rfl, hkeys⟩ := hall r (by simp)
    have ih := csvRows_uniform rs ks hnd (fun r' hr' => hall r' (by simp [hr']))
    show csvRows ks (JVal.obj g :: rs) = _
    simp only [csvRows, dictToRow_of_keys ks g hkeys hnd, ih]
    simp [recordRow]

/-- A `save_response` that exits 0 wrote one file and printed the
confirmation naming the destination. -/
theorem save_response_ok_shape (p : String) (body : JVal)
    (h : (save_response p body).exitCode = 0) :
    ∃ content, save_response p body =
      ⟨[.fileWrite p content,
        .printLine ("Response successfully saved to " ++ p)], 0⟩ := by
  unfold save_response at h ⊢
  dsimp only at h ⊢
  split_ifs at h ⊢ with h1 h2
  · exact ⟨json_dumps_indent4 body, rfl⟩
  · unfold save_csv at h ⊢
    rcases hrec : csvRecords body with - | ⟨r0, rs⟩
    · simp only [hrec] at h
      exact absurd h (by simp)
    · simp only [hrec] at h ⊢
      cases r0 with
      | obj fs0 =>
        rcases hrows : csvRows fs0.keyList (JVal.obj fs0 :: rs) with e | rows <;>
          simp only [hrows] at h ⊢
        · exact absurd h (by simp)
        · exact ⟨String.mk (csvRender (fs0.keyList :: rows)), rfl⟩
      | null => exact absurd h (by simp)
      | bool b => exact absurd h (by simp)
      | int n => exact absurd h (by simp)
      | str s => exact absurd h (by simp)
      | arr xs => exact absurd h (by simp)

/-! ## The claims -/

/-- C1, counterexample: the claim that every response with a non-2xx
status code makes the program print an error and exit non-zero before
any file write fails at status 304: `requests.Response.ok` is true for
every code below 400, so `handle_response` treats 304 as success — with
an `-o o.json` destination it exits 0 and even performs a file write. -/
theorem claim_C1_cex :
    (¬(200 ≤ 304 ∧ 304 < 300)) ∧
    (handle_response (RestClient.init "get" "/posts/1" none (some "o.json"))
        304 JVal.null).exitCode = 0 ∧
    ((handle_response (RestClient.init "get" "/posts/1" none (some "o.json"))
        304 JVal.null).events.any Event.isFileWrite) = true := by
  refine ⟨by omega, by decide, by decide⟩

/-- C1, amended: for every HTTP response whose status code is in the
400–599 range (the transport layer's failure classification, i.e.
`response.ok` is false), the program prints the status code, prints the
error message, and exits 1 before any file write occurs, regardless of
the output destination; non-2xx codes outside that range (such as 304)
are handled as successes. -/
theorem claim_C1 (c : RestClient) (code : Nat) (body : JVal)
    (h4 : 400 ≤ code) (h6 : code < 600) :
    handle_response c code body =
      ⟨[.printLine (statusLine code),
        .printLine "Error: Request was not successful."], 1⟩ := by
  unfold handle_response
  rw [show response_ok code = false from by simp [response_ok, h4, h6]]
  simp

theorem claim_C1_witness :
    400 ≤ 404 ∧ 404 < 600 ∧
    handle_response (RestClient.init "get" "/posts/1" none (some "o.json"))
        404 JVal.null =
      ⟨[.printLine (statusLine 404),
        .printLine "Error: Request was not successful."], 1⟩ :=
  ⟨by decide, by decide,
    claim_C1 (RestClient.init "get" "/posts/1" none (some "o.json"))
      404 JVal.null (by decide) (by decide)⟩

/-- C2, counterexample: the argument grammar is case-sensitive — the
method token "GET" is rejected by `choices=["get", "post"]` with a usage
error, contradicting the claimed case-insensitive acceptance. -/
theorem claim_C2_cex :
    parse_args "GET" "/posts/1" none none =
      Except.error
        "argument method: invalid choice: 'GET' (choose from 'get', 'post')" :=
  rfl

/-- C2, amended: the Argument Resolver accepts the method token iff it
is exactly "get" or "post" (a literal, case-sensitive membership check);
every other token — including case variants such as "GET" or "Post" —
fails with a usage error raised by the argument grammar itself. -/
theorem claim_C2 (m e : String) (d o : Option String) :
    (parse_args m e d o).toOption.isSome = (m == "get" || m == "post") := by
  cases h : (m == "get" || m == "post") <;>
    simp [parse_args, h, Except.toOption]

/-- C3: every POST invocation without a payload fails with the
`ValueError` carrying "data is required" (printed as
`Invalid input: For POST requests, data is required.`), exits 1, and
performs no network call — the check precedes `requests.post`. -/
theorem claim_C3 (m e : String) (o : Option String) (code : Nat) (body : JVal)
    (hm : strLower m = "post") :
    send_request (RestClient.init m e none o) code body =
      ⟨[.printLine "Invalid input: For POST requests, data is required."],
        1⟩ ∧
    ((send_request (RestClient.init m e none o) code body).events.any
      Event.isNet) = false := by
  have h1 : send_request (RestClient.init m e none o) code body =
      ⟨[.printLine "Invalid input: For POST requests, data is required."],
        1⟩ := by
    simp [send_request, RestClient.init, hm, optStrTruthy]
  exact ⟨h1, by rw [h1]; decide⟩

theorem claim_C3_witness :
    (strLower "post" = "post") ∧
    (send_request (RestClient.init "post" "/posts" none none) 200 JVal.null =
      ⟨[.printLine "Invalid input: For POST requests, data is required."],
        1⟩ ∧
    ((send_request (RestClient.init "post" "/posts" none none) 200
      JVal.null).events.any Event.isNet) = false) :=
  ⟨by decide, claim_C3 "post" "/posts" none 200 JVal.null (by decide)⟩

/-- C10: payload presence is decided by Python string truthiness
(`if not self.data`), so a POST whose `-d` is the empty string is
treated as having no payload: it fails with the "data is required"
message — not a JSON parse error — exits 1, and makes no network
call. -/
theorem claim_C10 (m e : String) (o : Option String) (code : Nat) (body : JVal)
    (hm : strLower m = "post") :
    send_request (RestClient.init m e (some "") o) code body =
      ⟨[.printLine "Invalid input: For POST requests, data is required."],
        1⟩ ∧
    ((send_request (RestClient.init m e (some "") o) code body).events.any
      Event.isNet) = false := by
  have h1 : send_request (RestClient.init m e (some "") o) code body =
      ⟨[.printLine "Invalid input: For POST requests, data is required."],
        1⟩ := by
    simp [send_request, RestClient.init, hm, optStrTruthy]
  exact ⟨h1, by rw [h1]; decide⟩

theorem claim_C10_witness :
    (strLower "post" = "post") ∧
    (send_request (RestClient.init "post" "/posts" (some "") none) 200
        JVal.null =
      ⟨[.printLine "Invalid input: For POST requests, data is required."],
        1⟩ ∧
    ((send_request (RestClient.init "post" "/posts" (some "") none) 200
      JVal.null).events.any Event.isNet) = false) :=
  ⟨by decide, claim_C10 "post" "/posts" none 200 JVal.null (by decide)⟩

/-- C4: every POST invocation whose (truthy) payload is not valid JSON
text fails with an `Invalid input` diagnostic from the
`json.JSONDecodeError` and exits 1 before any network call —
`json.loads` runs before `requests.post`. -/
theorem claim_C4 (m e s : String) (o : Option String) (code : Nat)
    (body : JVal) (hm : strLower m = "post")
    (hs : optStrTruthy (some s) = true) (hj : json_loads s = none) :
    send_request (RestClient.init m e (some s) o) code body =
      ⟨[.printLine ("Invalid input: " ++ jsonDecodeErrText)], 1⟩ ∧
    ((send_request (RestClient.init m e (some s) o) code body).events.any
      Event.isNet) = false := by
  have h1 : send_request (RestClient.init m e (some s) o) code body =
      ⟨[.printLine ("Invalid input: " ++ jsonDecodeErrText)], 1⟩ := by
    simp [send_request, RestClient.init, hm, hs, hj]
  exact ⟨h1, by rw [h1]; decide⟩

theorem claim_C4_witness :
    (strLower "post" = "post") ∧ optStrTruthy (some "\x7b") = true ∧
    json_loads "\x7b" = none ∧
    (send_request (RestClient.init "post" "/posts" (some "\x7b") none) 200
        JVal.null =
      ⟨[.printLine ("Invalid input: " ++ jsonDecodeErrText)], 1⟩ ∧
    ((send_request (RestClient.init "post" "/posts" (some "\x7b") none) 200
      JVal.null).events.any Event.isNet) = false) :=
  ⟨by decide, by decide, by decide,
    claim_C4 "post" "/posts" "\x7b" none 200 JVal.null (by decide) (by decide)
      (by decide)⟩

/-- C5: when the destination ends in `.csv` and the record sequence
derived from the body is empty, `data[0]` raises
`IndexError("list index out of range")`, caught and printed by the
generic handler; the process exits 1 and no fallback schema is
inferred (the outcome performs no successful write). -/
theorem claim_C5 (p : String) (body : JVal)
    (hext : splitext_ext p = ".csv") (hrec : csvRecords body = []) :
    save_response p body =
      ⟨[.printLine "File write error: list index out of range"], 1⟩ ∧
    ((save_response p body).events.any Event.isFileWrite) = false := by
  have h1 : save_response p body =
      ⟨[.printLine "File write error: list index out of range"], 1⟩ := by
    unfold save_response
    dsimp only
    rw [hext]
    simp [save_csv, hrec]
  exact ⟨h1, by rw [h1]; decide⟩

theorem claim_C5_witness :
    splitext_ext "out.csv" = ".csv" ∧ csvRecords (JVal.arr .nil) = [] ∧
    (save_response "out.csv" (JVal.arr .nil) =
      ⟨[.printLine "File write error: list index out of range"], 1⟩ ∧
    ((save_response "out.csv" (JVal.arr .nil)).events.any
      Event.isFileWrite) = false) :=
  ⟨by decide, by decide,
    claim_C5 "out.csv" (JVal.arr .nil) (by decide) (by decide)⟩

/-- C6: a destination whose extension is neither `.json` nor `.csv`
makes `save_response` print the unsupported-format error and exit 1
before anything is opened: nothing is written and no file is created. -/
theorem claim_C6 (p : String) (body : JVal)
    (h1 : ¬splitext_ext p = ".json") (h2 : ¬splitext_ext p = ".csv") :
    save_response p body =
      ⟨[.printLine
          ("Error: Unsupported file format '" ++ splitext_ext p ++ "'.")],
        1⟩ ∧
    ((save_response p body).events.any Event.isFileWrite) = false := by
  have e : save_response p body =
      ⟨[.printLine
          ("Error: Unsupported file format '" ++ splitext_ext p ++ "'.")],
        1⟩ := by
    unfold save_response
    dsimp only
    rw [if_neg (by simp [h1]), if_neg (by simp [h2])]
  exact ⟨e, by rw [e]; simp [Event.isFileWrite]⟩

theorem claim_C6_witness :
    ¬splitext_ext "report.txt" = ".json" ∧
    ¬splitext_ext "report.txt" = ".csv" ∧
    (save_response "report.txt" JVal.null =
      ⟨[.printLine
          ("Error: Unsupported file format '" ++ splitext_ext "report.txt" ++
            "'.")],
        1⟩ ∧
    ((save_response "report.txt" JVal.null).events.any
      Event.isFileWrite) = false) :=
  ⟨by decide, by decide,
    claim_C6 "report.txt" JVal.null (by decide) (by decide)⟩

/-- C7: for a non-empty list of uniform mapping records, the CSV export
writes the first record's keys, in their original order, as the header
row, then one row per record in encounter order; the csv reader parses
the written content back to exactly those rows, whose fields are the
records' values rendered by the writer's string conversion. -/
theorem claim_C7 (out : String) (xs : JArr) (fs0 : JObj) (rs : List JVal)
    (h1 : xs.toList = JVal.obj fs0 :: rs)
    (h2 : ∀ r ∈ xs.toList, ∃ g : JObj, r = .obj g ∧ g.keyList = fs0.keyList)
    (h3 : fs0.keyList.Nodup) :
    save_csv out (.arr xs) =
      ⟨[.fileWrite out (String.mk (csvRender
          (fs0.keyList :: xs.toList.map recordRow))),
        .printLine ("Response successfully saved to " ++ out)], 0⟩ ∧
    csvParse (csvRender (fs0.keyList :: xs.toList.map recordRow)) =
      some (fs0.keyList :: xs.toList.map recordRow) := by
  constructor
  · have hrows := csvRows_uniform xs.toList fs0.keyList h3 h2
    have hrec : csvRecords (.arr xs) = xs.toList := rfl
    rw [h1] at hrows
    unfold save_csv
    simp only [hrec, h1, hrows]
  · exact csv_roundtrip _

theorem claim_C7_witness :
    (JArr.cons
        (JVal.obj (.cons ['a'] (.int 1) (.cons ['b'] (.str ['x']) .nil)))
        (JArr.cons
          (JVal.obj (.cons ['a'] (.int 2) (.cons ['b'] .null .nil)))
          .nil)).toList =
      JVal.obj (.cons ['a'] (.int 1) (.cons ['b'] (.str ['x']) .nil)) ::
        [JVal.obj (.cons ['a'] (.int 2) (.cons ['b'] .null .nil))] ∧
    (save_csv "out.csv"
        (.arr (JArr.cons
          (JVal.obj (.cons ['a'] (.int 1) (.cons ['b'] (.str ['x']) .nil)))
          (JArr.cons
            (JVal.obj (.cons ['a'] (.int 2) (.cons ['b'] .null .nil)))
            .nil))) =
      ⟨[.fileWrite "out.csv" (String.mk (csvRender
          ((JObj.cons ['a'] (.int 1) (.cons ['b'] (.str ['x']) .nil)).keyList ::
            (JArr.cons
              (JVal.obj (.cons ['a'] (.int 1) (.cons ['b'] (.str ['x']) .nil)))
              (JArr.cons
                (JVal.obj (.cons ['a'] (.int 2) (.cons ['b'] .null .nil)))
                .nil)).toList.map recordRow))),
        .printLine ("Response successfully saved to " ++ "out.csv")], 0⟩ ∧
    csvParse (csvRender
        ((JObj.cons ['a'] (.int 1) (.cons ['b'] (.str ['x']) .nil)).keyList ::
          (JArr.cons
            (JVal.obj (.cons ['a'] (.int 1) (.cons ['b'] (.str ['x']) .nil)))
            (JArr.cons
              (JVal.obj (.cons ['a'] (.int 2) (.cons ['b'] .null .nil)))
              .nil)).toList.map recordRow)) =
      some ((JObj.cons ['a'] (.int 1) (.cons ['b'] (.str ['x']) .nil)).keyList ::
        (JArr.cons
          (JVal.obj (.cons ['a'] (.int 1) (.cons ['b'] (.str ['x']) .nil)))
          (JArr.cons
            (JVal.obj (.cons ['a'] (.int 2) (.cons ['b'] .null .nil)))
            .nil)).toList.map recordRow)) :=
  ⟨rfl,
    claim_C7 "out.csv"
      (JArr.cons
        (JVal.obj (.cons ['a'] (.int 1) (.cons ['b'] (.str ['x']) .nil)))
        (JArr.cons
          (JVal.obj (.cons ['a'] (.int 2) (.cons ['b'] .null .nil)))
          .nil))
      (JObj.cons ['a'] (.int 1) (.cons ['b'] (.str ['x']) .nil))
      [JVal.obj (.cons ['a'] (.int 2) (.cons ['b'] .null .nil))]
      rfl
      (by
        intro r hr
        simp only [JArr.toList, List.mem_cons, List.not_mem_nil,
          or_false] at hr
        rcases hr with rfl | rfl
        · exact ⟨_, rfl, rfl⟩
        · exact ⟨_, rfl, rfl⟩)
      (by decide)⟩

/-- C8: saving a decoded body to a `.json` destination writes
`json.dumps(body, indent=4)` and prints the confirmation; reloading that
content with `json.loads` yields a value deeply equal to the original
body — the serialize-then-parse round trip is the identity on Python's
data model (objects with distinct keys). -/
theorem claim_C8 (p : String) (v : JVal) (h : wfKeysV v = true) :
    save_json p v =
      ⟨[.fileWrite p (json_dumps_indent4 v),
        .printLine ("Response successfully saved to " ++ p)], 0⟩ ∧
    json_loads (json_dumps_indent4 v) = some v :=
  ⟨rfl, json_roundtrip v h⟩

theorem claim_C8_witness :
    wfKeysV (JVal.obj (.cons ['a']
      (.arr (.cons (.int 1) (.cons (.str ['x']) .nil)))
      (.cons ['b'] .null .nil))) = true ∧
    (save_json "o.json" (JVal.obj (.cons ['a']
        (.arr (.cons (.int 1) (.cons (.str ['x']) .nil)))
        (.cons ['b'] .null .nil))) =
      ⟨[.fileWrite "o.json" (json_dumps_indent4 (JVal.obj (.cons ['a']
          (.arr (.cons (.int 1) (.cons (.str ['x']) .nil)))
          (.cons ['b'] .null .nil)))),
        .printLine ("Response successfully saved to " ++ "o.json")], 0⟩ ∧
    json_loads (json_dumps_indent4 (JVal.obj (.cons ['a']
        (.arr (.cons (.int 1) (.cons (.str ['x']) .nil)))
        (.cons ['b'] .null .nil)))) =
      some (JVal.obj (.cons ['a']
        (.arr (.cons (.int 1) (.cons (.str ['x']) .nil)))
        (.cons ['b'] .null .nil)))) :=
  ⟨by decide,
    claim_C8 "o.json" (JVal.obj (.cons ['a']
      (.arr (.cons (.int 1) (.cons (.str ['x']) .nil)))
      (.cons ['b'] .null .nil))) (by decide)⟩

/-- C9: on a success response, without an output destination the program
prints exactly the status line followed by the body reserialized as
4-space-indented JSON and exits 0; with a truthy destination whose save
succeeds, it prints the status line, writes the file, and prints the
confirmation naming the saved path — the body itself is not printed. -/
theorem claim_C9 (c : RestClient) (code : Nat) (body : JVal)
    (hok : response_ok code = true) :
    (c.output = none →
      handle_response c code body =
        ⟨[.printLine (statusLine code),
          .printLine (json_dumps_indent4 body)], 0⟩) ∧
    (∀ p, c.output = some p → ¬p = "" →
      (save_response p body).exitCode = 0 →
      ∃ content, handle_response c code body =
        ⟨[.printLine (statusLine code), .fileWrite p content,
          .printLine ("Response successfully saved to " ++ p)], 0⟩) := by
  constructor
  · intro hnone
    unfold handle_response
    rw [if_neg (by simp [hok])]
    rw [hnone]
    simp [optStrTruthy]
  · intro p hp hpne hsave
    obtain ⟨content, hshape⟩ := save_response_ok_shape p body hsave
    refine ⟨content, ?_⟩
    unfold handle_response
    rw [if_neg (by simp [hok])]
    rw [hp]
    rw [show optStrTruthy (some p) = true from by simp [optStrTruthy, hpne]]
    simp [hshape]

theorem claim_C9_witness :
    response_ok 200 = true ∧
    (((RestClient.init "get" "/posts/1" none (some "o.json")).output = none →
      handle_response (RestClient.init "get" "/posts/1" none (some "o.json"))
          200 JVal.null =
        ⟨[.printLine (statusLine 200),
          .printLine (json_dumps_indent4 JVal.null)], 0⟩) ∧
    (∀ p, (RestClient.init "get" "/posts/1" none (some "o.json")).output =
        some p → ¬p = "" →
      (save_response p JVal.null).exitCode = 0 →
      ∃ content,
        handle_response (RestClient.init "get" "/posts/1" none (some "o.json"))
            200 JVal.null =
          ⟨[.printLine (statusLine 200), .fileWrite p content,
            .printLine ("Response successfully saved to " ++ p)], 0⟩)) :=
  ⟨by decide,
    claim_C9 (RestClient.init "get" "/posts/1" none (some "o.json"))
      200 JVal.null (by decide)⟩
